import Mathlib

/-!
Verification development for the linenoise fork (embedded, non-blocking port).

The definitions below are a shallow embedding of linenoise.c.  Bytes are
modelled as natural numbers, C byte buffers as lists of naturals, and the
process-global editor state (struct linenoiseState l_state) together with the
process-global history as explicit records threaded through the step
function linenoiseEdit.  Host callbacks (linenoise_getch, the completion
callback, the multi-line flag) are parameters of the step function:
the byte source is an Option Nat (none means no byte available) and the
completion callback is a function from the current buffer to candidate lists.
Rendering writes bytes to the terminal; only its effect on the editor state
(oldpos, maxrows in multi-line mode) is tracked in the step function, while
the hint renderer refreshShowHints is modelled separately as a pure function
from its inputs to the emitted byte list, which is what the hint claims are
about.

size_t values are modelled as Nat.  Where the C code can only run with
nonzero operands the truncated Nat subtraction coincides with size_t
subtraction; the one place where size_t wraparound is actually reachable
(refreshMultiLine) is modelled with explicit arithmetic modulo 2 ^ 64
(sizeTSub below).
-/

namespace Linenoise

/-- Modes of the line-editor state machine (the anonymous enum inside
struct linenoiseState: ln_init, ln_read_regular, ln_read_esc, ln_completion,
ln_getColumns, ln_getColumns_1, ln_getColumns_2). -/
inductive Mode
  | init
  | readRegular
  | readEsc
  | completion
  | getColumns
  | getColumns1
  | getColumns2
deriving DecidableEq, Repr

/-- struct linenoiseState.  buf holds the contents of the host-owned line
buffer (the engine keeps a pointer to it between calls and the host does not
touch it); buflen is the l->buflen field (decremented once in lnInitState).
The cursor-position-report fields (cur_pos_buf, cur_pos_idx, cur_pos_initial)
are omitted: the only code that touches them, getCursorPosition, is
unreachable because getColumns starts with goto failed (see getColumns). -/
structure State where
  mode : Mode
  seq : List Nat
  completion_idx : Nat
  lc : List (List Nat)
  smart_term_connected : Bool
  buf : List Nat
  buflen : Nat
  prompt : List Nat
  plen : Nat
  pos : Nat
  oldpos : Nat
  len : Nat
  cols : Nat
  maxrows : Nat
  history_index : Int
deriving DecidableEq, Repr

/-- The process-wide history store: history_max_len together with the
history_len allocated entries (history_len = entries.length). -/
structure Hist where
  max_len : Nat
  entries : List (List Nat)
deriving DecidableEq, Repr

/-- Contents of a C string stored in a byte list: the bytes up to the first
NUL terminator.  Models what strlen / strdup / strcmp read from l->buf. -/
def cstr (l : List Nat) : List Nat := l.takeWhile (fun b => b ≠ 0)

/-- strlen of a byte list viewed as a C string. -/
def strlenL (l : List Nat) : Nat := (cstr l).length

/-- size_t subtraction: a - b computed modulo 2 ^ 64 (for a, b < 2 ^ 64). -/
def sizeTSub (a b : Nat) : Nat := (a % 2 ^ 64 + (2 ^ 64 - b % 2 ^ 64)) % 2 ^ 64

/-- The statically initialized l_state: .mode = ln_getColumns, every other
field zero / false / NULL. -/
def initialState : State :=
  { mode := Mode.getColumns
    seq := []
    completion_idx := 0
    lc := []
    smart_term_connected := false
    buf := []
    buflen := 0
    prompt := []
    plen := 0
    pos := 0
    oldpos := 0
    len := 0
    cols := 0
    maxrows := 0
    history_index := 0 }

/-- The initial history store: history_len = 0, history_max_len =
LINENOISE_DEFAULT_HISTORY_MAX_LEN = 100. -/
def initialHist : Hist := { max_len := 100, entries := [] }

/-- A completion callback that offers no candidates (the weak default
linenoise_completion). -/
def noCompletions : List Nat → List (List Nat) := fun _ => []

/-! ### History store operations -/

/-- linenoiseHistoryAdd.  Allocation (calloc / strdup) is modelled as always
succeeding; on a NULL return the C function is a no-op, which the claims about
the store treat as the AllocFailure soft-error path. -/
def linenoiseHistoryAdd (h : Hist) (line : List Nat) : Hist :=
  if h.max_len = 0 then h
  else if h.entries ≠ [] ∧ h.entries.getLast? = some line then h
  else
    let e := if h.entries.length = h.max_len then h.entries.drop 1 else h.entries
    { h with entries := e ++ [line] }

/-- The pair history_len--; free(history[history_len]) that pops the scratch
slot (ENTER and the Ctrl-D EOF path of lnHandleCharacter).  The C code
decrements a size_t; with history_len = 0 it would wrap around and index far
out of bounds (undefined behavior); the model removes the last entry when one
exists and is a no-op on the empty store. -/
def historyPop (h : Hist) : Hist := { h with entries := h.entries.dropLast }

/-- linenoiseHistorySetMaxLen. -/
def linenoiseHistorySetMaxLen (h : Hist) (n : Nat) : Hist :=
  if n < 1 then h
  else
    let tocopy := min h.entries.length n
    { max_len := n, entries := h.entries.drop (h.entries.length - tocopy) }

/-- linenoiseHistorySave: the byte stream written to the file: every entry
followed by a LF byte. -/
def linenoiseHistorySave (h : Hist) : List Nat :=
  h.entries.foldr (fun e acc => e ++ 10 :: acc) []

/-- One fgets(buf, 4096, fp) call on the remaining stream: reads until a LF
byte (kept) or until 4095 bytes are read or the stream ends.  The fuel
argument is the remaining capacity 4095. -/
def fgetsLine : Nat → List Nat → List Nat × List Nat
  | _, [] => ([], [])
  | 0, bs => ([], bs)
  | n + 1, b :: bs =>
      if b = 10 then ([10], bs)
      else
        let r := fgetsLine n bs
        (b :: r.1, r.2)

/-- All fgets chunks of a byte stream (fuel-indexed; each chunk taken from a
nonempty stream is nonempty, so the length of the stream is enough fuel). -/
def fgetsSplitGo : Nat → List Nat → List (List Nat)
  | 0, _ => []
  | _ + 1, [] => []
  | fuel + 1, b :: bs =>
      let r := fgetsLine 4095 (b :: bs)
      r.1 :: fgetsSplitGo fuel r.2

/-- The sequence of lines fgets produces from a byte stream. -/
def fgetsSplit (bs : List Nat) : List (List Nat) := fgetsSplitGo bs.length bs

/-- The truncation linenoiseHistoryLoad applies to each fgets chunk:
p = strchr(buf, CR); if absent p = strchr(buf, LF); if found *p = NUL. -/
def chopLine (l : List Nat) : List Nat :=
  if l.contains 13 then l.take (l.indexOf 13)
  else l.take (l.indexOf 10)

/-- linenoiseHistoryLoad of a byte stream (the contents of the history file)
into a store: each fgets chunk is truncated and pushed through
linenoiseHistoryAdd. -/
def linenoiseHistoryLoad (h : Hist) (bs : List Nat) : Hist :=
  (fgetsSplit bs).foldl (fun h line => linenoiseHistoryAdd h (chopLine line)) h

/-! ### Rendering: state effects -/

/-- The state updates performed by refreshMultiLine (the emitted bytes go to
the terminal): maxrows is raised to the current row count, once more if the
cursor sits exactly at the right margin at the end of the line, and oldpos is
set to pos.  Note that rows is computed with Nat division; the C code divides
size_t values and cols is 80 whenever this code can run. -/
def refreshMultiLineState (l : State) : State :=
  let plen := l.prompt.length
  let rows := (plen + l.len + l.cols - 1) / l.cols
  let maxrows1 := max l.maxrows rows
  let maxrows2 :=
    if l.pos ≠ 0 ∧ l.pos = l.len ∧ (l.pos + plen) % l.cols = 0 then
      max maxrows1 (rows + 1)
    else maxrows1
  { l with maxrows := maxrows2, oldpos := l.pos }

/-- refreshLine / refreshLineNoHints: refreshSingleLine does not modify the
state, refreshMultiLine does (ml is the process-wide mlmode flag).  Hints do
not change the state, so both refresh entry points have the same state
effect. -/
def refreshState (ml : Bool) (l : State) : State :=
  if ml then refreshMultiLineState l else l

/-! ### Edit operations -/

/-- linenoiseEditInsert.  The C function returns 0 unconditionally. -/
def linenoiseEditInsert (ml : Bool) (l : State) (c : Nat) : State :=
  if l.len < l.buflen then
    if l.len = l.pos then
      refreshState ml
        { l with buf := (l.buf.set l.pos c).set (l.len + 1) 0
                 pos := l.pos + 1
                 len := l.len + 1 }
    else
      -- memmove(buf+pos+1, buf+pos, len-pos); buf[pos] = c; len++; pos++; buf[len] = 0
      refreshState ml
        { l with buf := ((l.buf.take l.pos ++ c :: ((l.buf.drop l.pos).take (l.len - l.pos))
                          ++ l.buf.drop (l.len + 1)).set (l.len + 1) 0)
                 pos := l.pos + 1
                 len := l.len + 1 }
  else l

/-- linenoiseEditMoveLeft. -/
def linenoiseEditMoveLeft (ml : Bool) (l : State) : State :=
  if 0 < l.pos then refreshState ml { l with pos := l.pos - 1 } else l

/-- linenoiseEditMoveRight. -/
def linenoiseEditMoveRight (ml : Bool) (l : State) : State :=
  if l.pos ≠ l.len then refreshState ml { l with pos := l.pos + 1 } else l

/-- linenoiseEditMoveHome. -/
def linenoiseEditMoveHome (ml : Bool) (l : State) : State :=
  if l.pos ≠ 0 then refreshState ml { l with pos := 0 } else l

/-- linenoiseEditMoveEnd. -/
def linenoiseEditMoveEnd (ml : Bool) (l : State) : State :=
  if l.pos ≠ l.len then refreshState ml { l with pos := l.len } else l

/-- strncpy(dst, src, n) followed by dst[n-1] = 0, as used by
linenoiseEditHistoryNext: the first n bytes of dst become src padded with NUL
bytes, and byte n-1 is forced to NUL. -/
def strncpyNul (dst src : List Nat) (n : Nat) : List Nat :=
  (((src ++ List.replicate n 0).take n) ++ dst.drop n).set (n - 1) 0

/-- linenoiseEditHistoryNext (dir = 1 is LINENOISE_HISTORY_PREV, dir = 0 is
LINENOISE_HISTORY_NEXT).  The writeback slot index history_len - 1 -
(size_t)l->history_index is computed with Int.toNat; history_index is
non-negative in every state the engine produces. -/
def linenoiseEditHistoryNext (ml : Bool) (dir : Nat) (l : State) (h : Hist) :
    State × Hist :=
  if 1 < h.entries.length then
    let slot := h.entries.length - 1 - l.history_index.toNat
    let h' : Hist := { h with entries := h.entries.set slot (cstr l.buf) }
    let idx : Int := l.history_index + (if dir = 1 then 1 else -1)
    if idx < 0 then ({ l with history_index := 0 }, h')
    else if (h'.entries.length : Int) ≤ idx then
      ({ l with history_index := (h'.entries.length : Int) - 1 }, h')
    else
      let nbuf := strncpyNul l.buf (h'.entries.getD (h'.entries.length - 1 - idx.toNat) []) l.buflen
      let nlen := strlenL nbuf
      (refreshState ml
        { l with history_index := idx, buf := nbuf, len := nlen, pos := nlen }, h')
  else (l, h)

/-- linenoiseEditDelete. -/
def linenoiseEditDelete (ml : Bool) (l : State) : State :=
  if 0 < l.len ∧ l.pos < l.len then
    -- memmove(buf+pos, buf+pos+1, len-pos-1); len--; buf[len] = 0
    refreshState ml
      { l with buf := ((l.buf.take l.pos ++ ((l.buf.drop (l.pos + 1)).take (l.len - l.pos - 1))
                        ++ l.buf.drop (l.len - 1)).set (l.len - 1) 0)
               len := l.len - 1 }
  else l

/-- linenoiseEditBackspace. -/
def linenoiseEditBackspace (ml : Bool) (l : State) : State :=
  if 0 < l.pos ∧ 0 < l.len then
    -- memmove(buf+pos-1, buf+pos, len-pos); pos--; len--; buf[len] = 0
    refreshState ml
      { l with buf := ((l.buf.take (l.pos - 1) ++ ((l.buf.drop l.pos).take (l.len - l.pos))
                        ++ l.buf.drop (l.len - 1)).set (l.len - 1) 0)
               pos := l.pos - 1
               len := l.len - 1 }
  else l

/-- The first scan of linenoiseEditDeletePrevWord: while (pos > 0 && buf[pos-1]
is a space) pos--. -/
def skipSpacesBack (buf : List Nat) : Nat → Nat
  | 0 => 0
  | p + 1 => if buf.getD p 0 = 32 then skipSpacesBack buf p else p + 1

/-- The second scan of linenoiseEditDeletePrevWord: while (pos > 0 &&
buf[pos-1] is not a space) pos--. -/
def skipWordBack (buf : List Nat) : Nat → Nat
  | 0 => 0
  | p + 1 => if buf.getD p 0 ≠ 32 then skipWordBack buf p else p + 1

/-- linenoiseEditDeletePrevWord.  The memmove copies len - old_pos + 1 bytes
(the tail including its NUL terminator) down to the new cursor position. -/
def linenoiseEditDeletePrevWord (ml : Bool) (l : State) : State :=
  let old_pos := l.pos
  let p2 := skipWordBack l.buf (skipSpacesBack l.buf l.pos)
  let diff := old_pos - p2
  refreshState ml
    { l with buf := l.buf.take p2 ++ ((l.buf.drop old_pos).take (l.len - old_pos + 1))
                    ++ l.buf.drop (p2 + (l.len - old_pos + 1))
             pos := p2
             len := l.len - diff }

/-- Body of the CTRL_T case of lnHandleCharacter: swap buf[pos-1] and
buf[pos], advance pos unless at the last character. -/
def editSwapChars (ml : Bool) (l : State) : State :=
  if 0 < l.pos ∧ l.pos < l.len then
    let a := l.buf.getD (l.pos - 1) 0
    let b := l.buf.getD l.pos 0
    refreshState ml
      { l with buf := (l.buf.set (l.pos - 1) b).set l.pos a
               pos := if l.pos ≠ l.len - 1 then l.pos + 1 else l.pos }
  else l

/-- Body of the CTRL_U case of lnHandleCharacter: buf[0] = 0; pos = len = 0. -/
def editDeleteWholeLine (ml : Bool) (l : State) : State :=
  refreshState ml { l with buf := l.buf.set 0 0, pos := 0, len := 0 }

/-- Body of the CTRL_K case of lnHandleCharacter: buf[pos] = 0; len = pos. -/
def editDeleteToEnd (ml : Bool) (l : State) : State :=
  refreshState ml { l with buf := l.buf.set l.pos 0, len := l.pos }

/-! ### Completion -/

/-- The skip loop at the top of lnShowCompletion: advance completion_idx past
candidates identical to the current line buffer; the increment is
(idx + 1) % (lc.len + 1) exactly as in the source. -/
def skipEqualCompletions (bufc : List Nat) (cvec : List (List Nat)) (idx : Nat) : Nat :=
  if h : idx < cvec.length then
    if cvec.get ⟨idx, h⟩ = bufc then
      skipEqualCompletions bufc cvec ((idx + 1) % (cvec.length + 1))
    else idx
  else idx
termination_by cvec.length - idx
decreasing_by
  have : (idx + 1) % (cvec.length + 1) = idx + 1 := Nat.mod_eq_of_lt (by omega)
  omega

/-- lnShowCompletion: advances completion_idx with the skip loop, then repaints
either the selected candidate (with len, pos, buf temporarily replaced and
restored afterwards) or the original buffer.  Only the refresh side effects
on maxrows and oldpos survive the restore. -/
def lnShowCompletion (ml : Bool) (ls : State) : State :=
  let idx := skipEqualCompletions (cstr ls.buf) ls.lc ls.completion_idx
  let ls := { ls with completion_idx := idx }
  if idx < ls.lc.length then
    let cand := ls.lc.getD idx []
    let tmp := refreshState ml { ls with len := cand.length, pos := cand.length, buf := cand }
    { ls with maxrows := tmp.maxrows, oldpos := tmp.oldpos }
  else refreshState ml ls

/-- completeLine: populate the candidate set from the completion callback;
beep and free it when empty, otherwise enter ln_completion and show the first
candidate. -/
def completeLine (ml : Bool) (compl : List Nat → List (List Nat)) (ls : State) : State :=
  let lc := compl (cstr ls.buf)
  if lc.length = 0 then { ls with lc := [] }
  else lnShowCompletion ml { ls with lc := lc, completion_idx := 0, mode := Mode.completion }

/-- snprintf(dst, n, "%s", src): writes min(strlen(src), n-1) bytes plus a NUL
terminator when n > 0 and returns strlen(src).  Used by lnCompletion when a
candidate is accepted. -/
def snprintfStr (dst : List Nat) (n : Nat) (src : List Nat) : List Nat × Nat :=
  if n = 0 then (dst, src.length)
  else
    let w := min src.length (n - 1)
    (src.take w ++ 0 :: dst.drop (w + 1), src.length)

/-! ### The state machine -/

/-- getColumns.  The function body begins with an unconditional goto failed
(comment in the source: detection does not work and enablement causes a
capability exception), so column probing is statically disabled: the whole
switch over the ln_getColumns sub-modes and getCursorPosition are dead code,
and the function always takes the failed path (smart_term_connected = false,
cols = 80), falls into finished (mode = ln_init) and returns 0. -/
def getColumns (ls : State) : State × Int :=
  ({ ls with smart_term_connected := false, cols := 80, mode := Mode.init }, 0)

/-- linenoiseClearScreen: emits the clear sequence and forces re-probing by
setting the global state's mode to ln_getColumns. -/
def linenoiseClearScreen (l : State) : State := { l with mode := Mode.getColumns }

/-- lnInitState.  The host buffer keeps its bytes between calls; when the host
hands a buffer of a different capacity the model pads with NUL bytes.  The
function stores the host arguments, zeroes the cursor and length, writes the
NUL terminator at buf[0], reserves the terminator slot (l->buflen--), seeds
the history scratch slot with an empty line and prints the prompt. -/
def lnInitState (l : State) (h : Hist) (B : Nat) (prompt : List Nat) :
    State × Hist :=
  ({ l with buf := ((l.buf ++ List.replicate B 0).take B).set 0 0
            buflen := B - 1
            prompt := prompt
            plen := prompt.length
            oldpos := 0
            pos := 0
            len := 0
            maxrows := 0
            history_index := 0
            mode := Mode.readRegular },
   linenoiseHistoryAdd h [])

/-- lnRestartState: after a finished line, re-enter ln_getColumns on a smart
terminal and go straight to ln_init on a dumb one. -/
def lnRestartState (l : State) : State :=
  { l with mode := if l.smart_term_connected then Mode.getColumns else Mode.init }

/-- lnHandleCharacter: the smart-terminal key dispatcher.  Returns the new
state, the new history and the int result of the C function: the committed
length on ENTER, -2 on Ctrl-D with an empty buffer, -1 otherwise. -/
def lnHandleCharacter (ml : Bool) (compl : List Nat → List (List Nat))
    (l : State) (h : Hist) (c : Nat) : State × Hist × Int :=
  if c = 9 then (completeLine ml compl l, h, -1)
  else if c = 13 then
    -- ENTER: pop the scratch slot, move to the end in multi-line mode,
    -- repaint without hints, restart the machine, return the length.
    let h := historyPop h
    let l := if ml then linenoiseEditMoveEnd ml l else l
    let l := refreshState ml l
    (lnRestartState l, h, Int.ofNat l.len)
  else if c = 3 then (l, h, -1)  -- CTRL_C: errno = EAGAIN; return -1
  else if c = 127 ∨ c = 8 then (linenoiseEditBackspace ml l, h, -1)
  else if c = 4 then
    if 0 < l.len then (linenoiseEditDelete ml l, h, -1)
    else (l, historyPop h, -2)
  else if c = 20 then (editSwapChars ml l, h, -1)
  else if c = 2 then (linenoiseEditMoveLeft ml l, h, -1)
  else if c = 6 then (linenoiseEditMoveRight ml l, h, -1)
  else if c = 16 then
    let r := linenoiseEditHistoryNext ml 1 l h
    (r.1, r.2, -1)
  else if c = 14 then
    let r := linenoiseEditHistoryNext ml 0 l h
    (r.1, r.2, -1)
  else if c = 27 then ({ l with seq := [], mode := Mode.readEsc }, h, -1)
  else if c = 21 then (editDeleteWholeLine ml l, h, -1)
  else if c = 11 then (editDeleteToEnd ml l, h, -1)
  else if c = 1 then (linenoiseEditMoveHome ml l, h, -1)
  else if c = 5 then (linenoiseEditMoveEnd ml l, h, -1)
  else if c = 12 then (refreshState ml (linenoiseClearScreen l), h, -1)
  else if c = 23 then (linenoiseEditDeletePrevWord ml l, h, -1)
  else (linenoiseEditInsert ml l c, h, -1)

/-- lnHandleCharacterDumb: the dumb-terminal handler.  CR or LF terminates the
line at pos and restarts; any other byte is stored at pos, and reaching
buflen - 1 commits the line with a forced terminator in the last slot.
l->buflen is at least 1 whenever this runs (lnInitState ran first), so the
Nat subtraction buflen - 1 agrees with the size_t subtraction. -/
def lnHandleCharacterDumb (l : State) (h : Hist) (c : Nat) : State × Hist × Int :=
  if c = 13 ∨ c = 10 then
    (lnRestartState { l with buf := l.buf.set l.pos 0 }, h, Int.ofNat l.pos)
  else
    let l := { l with buf := l.buf.set l.pos c, pos := l.pos + 1 }
    if l.buflen - 1 ≤ l.pos then
      (lnRestartState { l with buf := l.buf.set (l.buflen - 1) 0 }, h, Int.ofNat l.pos)
    else (l, h, -1)

/-- lnReadEscSequence: accumulate up to three bytes after ESC and dispatch. -/
def lnReadEscSequence (ml : Bool) (l : State) (h : Hist) (input : Option Nat) :
    State × Hist × Int :=
  match input with
  | none => (l, h, -1)
  | some c =>
    if 3 ≤ l.seq.length then (l, h, -1)
    else
      let l := { l with seq := l.seq ++ [c] }
      if l.seq.length < 2 then (l, h, -1)
      else
        let s0 := l.seq.getD 0 0
        let s1 := l.seq.getD 1 0
        if s0 = 91 then
          if 48 ≤ s1 ∧ s1 ≤ 57 then
            if l.seq.length < 3 then (l, h, -1)
            else
              let s2 := l.seq.getD 2 0
              let l :=
                if s2 = 126 ∧ s1 = 51 then linenoiseEditDelete ml l else l
              ({ l with mode := Mode.readRegular }, h, -1)
          else
            if s1 = 65 then
              let r := linenoiseEditHistoryNext ml 1 l h
              ({ r.1 with mode := Mode.readRegular }, r.2, -1)
            else if s1 = 66 then
              let r := linenoiseEditHistoryNext ml 0 l h
              ({ r.1 with mode := Mode.readRegular }, r.2, -1)
            else if s1 = 67 then
              ({ linenoiseEditMoveRight ml l with mode := Mode.readRegular }, h, -1)
            else if s1 = 68 then
              ({ linenoiseEditMoveLeft ml l with mode := Mode.readRegular }, h, -1)
            else if s1 = 72 then
              ({ linenoiseEditMoveHome ml l with mode := Mode.readRegular }, h, -1)
            else if s1 = 70 then
              ({ linenoiseEditMoveEnd ml l with mode := Mode.readRegular }, h, -1)
            else ({ l with mode := Mode.readRegular }, h, -1)
        else if s0 = 79 then
          if s1 = 72 then
            ({ linenoiseEditMoveHome ml l with mode := Mode.readRegular }, h, -1)
          else if s1 = 70 then
            ({ linenoiseEditMoveEnd ml l with mode := Mode.readRegular }, h, -1)
          else ({ l with mode := Mode.readRegular }, h, -1)
        else ({ l with mode := Mode.readRegular }, h, -1)

/-- lnCompletion: one byte in ln_completion mode.  Tab cycles through the
candidates, any other byte leaves completion mode (accepting the candidate
into the buffer with snprintf unless ESC or past the last candidate) and is
re-dispatched through lnHandleCharacter. -/
def lnCompletion (ml : Bool) (compl : List Nat → List (List Nat))
    (ls : State) (h : Hist) (input : Option Nat) : State × Hist × Int :=
  match input with
  | none => (ls, h, -1)
  | some c =>
    if c = 9 then
      let idx := (ls.completion_idx + 1) % (ls.lc.length + 1)
      (lnShowCompletion ml { ls with completion_idx := idx }, h, -1)
    else
      let ls :=
        if c = 27 then
          if ls.completion_idx < ls.lc.length then refreshState ml ls else ls
        else
          if ls.completion_idx < ls.lc.length then
            let r := snprintfStr ls.buf ls.buflen (ls.lc.getD ls.completion_idx [])
            { ls with buf := r.1, len := r.2, pos := r.2 }
          else ls
      let ls := { ls with mode := Mode.readRegular, lc := [] }
      lnHandleCharacter ml compl ls h c

/-- lnReadUserInput: fetch one byte (none models linenoise_getch returning a
negative value) and dispatch it through the smart or dumb handler. -/
def lnReadUserInput (ml : Bool) (compl : List Nat → List (List Nat))
    (l : State) (h : Hist) (input : Option Nat) : State × Hist × Int :=
  match input with
  | none => (l, h, -1)
  | some c =>
    if l.smart_term_connected then lnHandleCharacter ml compl l h c
    else lnHandleCharacterDumb l h c

/-- linenoiseEdit: one step of the engine.  ml is the process-wide mlmode
flag, compl the completion callback, B and prompt the host buffer capacity
and prompt, input the available byte if any. -/
def linenoiseEdit (ml : Bool) (compl : List Nat → List (List Nat))
    (s : State) (h : Hist) (B : Nat) (prompt : List Nat) (input : Option Nat) :
    State × Hist × Int :=
  match s.mode with
  | Mode.readRegular => lnReadUserInput ml compl s h input
  | Mode.readEsc => lnReadEscSequence ml s h input
  | Mode.completion => lnCompletion ml compl s h input
  | Mode.init =>
      let sh := lnInitState s h B prompt
      lnReadUserInput ml compl sh.1 sh.2 input
  | _ =>
      -- ln_getColumns, ln_getColumns_1, ln_getColumns_2 (and the C default)
      let sr := getColumns s
      if sr.2 < 0 then (sr.1, h, -1)
      else
        let sh := lnInitState sr.1 h B prompt
        lnReadUserInput ml compl sh.1 sh.2 input

/-- linenoiseRefreshEditor: repaint on demand; a no-op unless a smart terminal
is connected and the editor is active. -/
def linenoiseRefreshEditor (ml : Bool) (l : State) : State :=
  if l.smart_term_connected = false then l
  else
    match l.mode with
    | Mode.init | Mode.getColumns | Mode.getColumns1 | Mode.getColumns2 => l
    | Mode.completion => lnShowCompletion ml l
    | _ => refreshState ml l

/-- linenoiseUpdatePrompt. -/
def linenoiseUpdatePrompt (ml : Bool) (p : List Nat) (l : State) : State :=
  linenoiseRefreshEditor ml { l with prompt := p, plen := p.length }

/-- smartTerminalConnected. -/
def smartTerminalConnected (l : State) : Bool := l.smart_term_connected

/-! ### The hint renderer -/

/-- The byte sequence of the string literal "\x1b[0;35;49m". -/
def escHintNorm : List Nat := [27, 91, 48, 59, 51, 53, 59, 52, 57, 109]

/-- The byte sequence of the string literal "\x1b[7;35;49m" (reverse video). -/
def escHintRev : List Nat := [27, 91, 55, 59, 51, 53, 59, 52, 57, 109]

/-- The byte sequence of the string literal "\x1b[1;35;49m" (bold). -/
def escHintBold : List Nat := [27, 91, 49, 59, 51, 53, 59, 52, 57, 109]

/-- The byte sequence of the string literal "\x1b[0m". -/
def escReset : List Nat := [27, 91, 48, 109]

/-- The arg_id loop of refreshShowHints: the number of space bytes in the
buffer. -/
def countSpaces (buf : List Nat) : Nat := buf.countP (fun b => b == 32)

/-- One iteration of the while (arg_id--) loop of refreshShowHints: from
offset p, advance hint_ptr while nonzero and not an opening bracket, then
step past the bracket if one was found; the result is the new arg_start. -/
def nextArgStart (tpl : List Nat) (p : Nat) : Nat :=
  let q := p + ((tpl.drop p).takeWhile (fun b => b != 0 && b != 91)).length
  if tpl.getD q 0 ≠ 0 then q + 1 else q

/-- arg_start after k iterations of the while (arg_id--) loop (hint_ptr starts
at the beginning of the template and persists across iterations). -/
def argStartIter (tpl : List Nat) : Nat → Nat
  | 0 => 0
  | k + 1 => nextArgStart tpl (argStartIter tpl k)

/-- The arg_end scan of refreshShowHints: from arg_start, advance while the
byte is nonzero, not a space and not a closing bracket. -/
def argEndFrom (tpl : List Nat) (st : Nat) : Nat :=
  st + ((tpl.drop st).takeWhile (fun b => b != 0 && b != 32 && b != 93)).length

/-- refreshShowHints: the bytes appended to the append buffer, given the
terminal column count, the prompt length, the line length, the line buffer
(as its C string contents) and the pair returned by the hints callback (none
models a NULL return; an empty first or second component models both a NULL
pointer and an empty string, which the code treats identically). -/
def refreshShowHints (cols plen len : Nat) (buf : List Nat)
    (hint : Option (List Nat × List Nat)) : List Nat :=
  let cols_avail : Int := (cols : Int) - (plen + len + 1)
  if 0 < cols_avail then
    match hint with
    | none => []
    | some (h0, h1) =>
      let part0 := 32 :: escHintNorm
      let argsOut : List Nat × Int :=
        if h0 ≠ [] then
          let abLen := min h0.length cols_avail.toNat
          let body :=
            if buf.contains 32 then
              let arg_id := countSpaces buf
              let arg_start := argStartIter h0 arg_id
              let arg_end := if arg_start ≠ 0 then argEndFrom h0 arg_start else 0
              if arg_start ≠ arg_end then
                h0.take (min abLen arg_start) ++ escHintRev
                  ++ (h0.drop arg_start).take
                      (if abLen < arg_start then 0
                       else if abLen < arg_end then abLen - arg_start
                       else arg_end - arg_start)
                  ++ escHintNorm
                  ++ (h0.drop arg_end).take (if abLen < arg_end then 0 else abLen - arg_end)
              else h0.take abLen
            else h0.take abLen
          let ca1 : Int := cols_avail - abLen
          if 0 < ca1 then (body ++ [32], ca1 - 1) else (body, ca1)
        else ([], cols_avail)
      let descOut : List Nat :=
        if 0 < argsOut.2 ∧ h1 ≠ [] then
          escHintBold ++ h1.take (min h1.length argsOut.2.toNat)
        else []
      part0 ++ argsOut.1 ++ descOut ++ escReset
  else []

/-- The sequence of bracket-delimited argument placeholders of an args
template, in the sense of the specification: for every opening bracket, the
following bytes up to the matching closing bracket. -/
def bracketGroups : List Nat → List (List Nat)
  | [] => []
  | b :: rest =>
      if b = 91 then (rest.takeWhile (fun x => x != 93)) :: bracketGroups rest
      else bracketGroups rest

/-- The suffix of a byte list after the first occurrence of a pattern, or none
if the pattern does not occur. -/
def afterPat (pat : List Nat) : List Nat → Option (List Nat)
  | [] => if pat = [] then some [] else none
  | b :: rest =>
      if pat.isPrefixOf (b :: rest) then some ((b :: rest).drop pat.length)
      else afterPat pat rest

/-- The prefix of a byte list before the first occurrence of a pattern (the
whole list if the pattern does not occur). -/
def beforePat (pat : List Nat) : List Nat → List Nat
  | [] => []
  | b :: rest =>
      if pat.isPrefixOf (b :: rest) then []
      else b :: beforePat pat rest

/-- The bytes wrapped in reverse video by a hint rendering: the bytes between
the first reverse-video escape and the following normal-color escape. -/
def firstHighlight (out : List Nat) : Option (List Nat) :=
  (afterPat escHintRev out).map (beforePat escHintNorm)

/-! ### refreshMultiLine arithmetic (for the wraparound analysis) -/

/-- The old_rows local of refreshMultiLine: l->maxrows read before the
update. -/
def refreshMultiLine_old_rows (l : State) : Nat := l.maxrows

/-- The rpos local of refreshMultiLine: (plen + oldpos + cols) / cols with
plen = strlen(l->prompt). -/
def refreshMultiLine_rpos (l : State) : Nat :=
  (l.prompt.length + l.oldpos + l.cols) / l.cols

/-! ### Invariants -/

/-- The buffer invariant of a smart-terminal editing session with host buffer
capacity B: the stored buffer mirrors the whole host buffer, buflen is the
decremented capacity, the cursor is inside the line, the line leaves room for
the terminator, and the buffer is NUL-terminated at len. -/
abbrev EInv (B : Nat) (s : State) : Prop :=
  s.buf.length = s.buflen + 1 ∧ s.buflen + 1 = B ∧ s.pos ≤ s.len ∧
    s.len ≤ s.buflen ∧ s.buf.getD s.len 1 = 0

/-- The candidate bound needed while in completion mode: every stored
candidate fits in the buffer together with its terminator. -/
abbrev CInv (B : Nat) (s : State) : Prop := ∀ e ∈ s.lc, e.length + 2 ≤ B

/-- The invariant of a dumb-terminal reading state: pos counts the bytes
typed so far (len is not maintained and stays 0); while more input is
accepted pos stays at most buflen - 2, so that the auto-commit fires exactly
when pos reaches buflen - 1 and the forced terminator lands at the returned
length. -/
abbrev DInv (B : Nat) (s : State) : Prop :=
  s.buf.length = s.buflen + 1 ∧ s.buflen + 1 = B ∧ s.pos + 2 ≤ s.buflen ∧ s.len = 0

/-- The editor invariant, by mode: the probing / init modes reinitialize the
buffer before reading, a smart reading state satisfies the buffer invariant
(plus the candidate bound in completion mode), a dumb reading state satisfies
the dumb invariant, and the dumb engine never sits in escape or completion
mode. -/
abbrev Inv (B : Nat) (s : State) : Prop :=
  match s.mode, s.smart_term_connected with
  | Mode.getColumns, _ => True
  | Mode.getColumns1, _ => True
  | Mode.getColumns2, _ => True
  | Mode.init, _ => True
  | Mode.readRegular, false => DInv B s
  | Mode.readRegular, true => EInv B s
  | Mode.readEsc, true => EInv B s
  | Mode.completion, true => EInv B s ∧ CInv B s
  | Mode.readEsc, false => False
  | Mode.completion, false => False

/-- Well-formedness of the history store: within capacity and without
adjacent duplicate entries. -/
abbrev HistWF (h : Hist) : Prop :=
  h.entries.length ≤ h.max_len ∧ List.Chain' (· ≠ ·) h.entries

/-- Postcondition of one linenoiseEdit step on its (state, history, result)
triple: the invariant is preserved; the result is -1, -2 or a non-negative
committed length at which the buffer is NUL-terminated; a commit restarts the
machine (ln_getColumns on a smart terminal, ln_init on a dumb one); the EOF
result leaves the machine in ln_read_regular. -/
abbrev EditPost (B : Nat) (r : State × Hist × Int) : Prop :=
  Inv B r.1 ∧
    (r.2.2 = -1 ∨ r.2.2 = -2 ∨ (0 ≤ r.2.2 ∧ r.1.buf.getD r.2.2.toNat 1 = 0)) ∧
    (0 ≤ r.2.2 →
      r.1.mode = (if r.1.smart_term_connected then Mode.getColumns else Mode.init)) ∧
    (r.2.2 = -2 → r.1.mode = Mode.readRegular)

/-- The specialization of EditPost delivered by the smart-terminal handler:
additionally the connection flag is untouched (true), so a commit restarts
into ln_getColumns. -/
abbrev HandlerPost (B : Nat) (r : State × Hist × Int) : Prop :=
  Inv B r.1 ∧ r.1.smart_term_connected = true ∧
    (r.2.2 = -1 ∨ r.2.2 = -2 ∨ (0 ≤ r.2.2 ∧ r.1.buf.getD r.2.2.toNat 1 = 0)) ∧
    (0 ≤ r.2.2 → r.1.mode = Mode.getColumns) ∧
    (r.2.2 = -2 → r.1.mode = Mode.readRegular)

/-- The host-callable history store operations. -/
inductive HistOp
  | add (line : List Nat)
  | setMax (n : Nat)
  | load (bytes : List Nat)

/-- Apply one history store operation. -/
def applyHistOp (h : Hist) : HistOp → Hist
  | HistOp.add line => linenoiseHistoryAdd h line
  | HistOp.setMax n => linenoiseHistorySetMaxLen h n
  | HistOp.load bs => linenoiseHistoryLoad h bs

/-- Apply a sequence of history store operations. -/
def applyHistOps (h : Hist) (ops : List HistOp) : Hist := ops.foldl applyHistOp h

/-! ### Concrete states used by the concrete evaluations -/

/-- A dumb-terminal regular-reading state as produced by the engine right
after its first step with no input byte available (host capacity 8, empty
prompt). -/
def dumbReadState : State :=
  { mode := Mode.readRegular
    seq := []
    completion_idx := 0
    lc := []
    smart_term_connected := false
    buf := List.replicate 8 0
    buflen := 7
    prompt := []
    plen := 0
    pos := 0
    oldpos := 0
    len := 0
    cols := 80
    maxrows := 0
    history_index := 0 }

/-- The same editing state with a smart terminal connected (the state the
smart-terminal dispatcher contract quantifies over). -/
def smartReadState : State := { dumbReadState with smart_term_connected := true }

/-- A smart editing session in which the user navigated to the oldest of
three history entries and edited the buffer to equal the middle entry. -/
def navReadState : State :=
  { smartReadState with
    buf := [121, 0, 0, 0, 0, 0, 0, 0]
    len := 1
    pos := 1
    history_index := 2 }

/-- A history store holding just the scratch slot of a fresh session. -/
def scratchHist : Hist := { max_len := 100, entries := [[]] }

/-- Three history entries: two committed lines and the scratch slot. -/
def navHist : Hist := { max_len := 100, entries := [[120], [121], []] }

/-- The editor states reachable from the statically initialized l_state under
any sequence of engine steps and of the other API calls that mutate the
state. -/
inductive Reachable : State → Prop
  | start : Reachable initialState
  | step (s : State) (ml : Bool) (compl : List Nat → List (List Nat))
      (h : Hist) (B : Nat) (prompt : List Nat) (input : Option Nat) :
      Reachable s → Reachable (linenoiseEdit ml compl s h B prompt input).1
  | clear (s : State) : Reachable s → Reachable (linenoiseClearScreen s)
  | refreshEd (s : State) (ml : Bool) : Reachable s → Reachable (linenoiseRefreshEditor ml s)
  | updPrompt (s : State) (ml : Bool) (p : List Nat) :
      Reachable s → Reachable (linenoiseUpdatePrompt ml p s)

/-! ## Helper lemmas -/

theorem getD_set_self {l : List Nat} {i v d : Nat} (h : i < l.length) :
    (l.set i v).getD i d = v := by
  rw [List.getD_eq_getElem?_getD, List.getElem?_set_self (by omega), Option.getD_some]

theorem getD_set_ne {l : List Nat} {i j v d : Nat} (h : i ≠ j) :
    (l.set i v).getD j d = l.getD j d := by
  rw [List.getD_eq_getElem?_getD, List.getElem?_set_ne h, ← List.getD_eq_getElem?_getD]

theorem getD_append_left {a b : List Nat} {i d : Nat} (h : i < a.length) :
    (a ++ b).getD i d = a.getD i d := by
  rw [List.getD_eq_getElem?_getD, List.getElem?_append, if_pos h,
    ← List.getD_eq_getElem?_getD]

theorem getD_append_right {a b : List Nat} {i d : Nat} (h : a.length ≤ i) :
    (a ++ b).getD i d = b.getD (i - a.length) d := by
  rw [List.getD_eq_getElem?_getD, List.getElem?_append, if_neg (by omega),
    ← List.getD_eq_getElem?_getD]

theorem getD_take {l : List Nat} {n i d : Nat} (h : i < n) :
    (l.take n).getD i d = l.getD i d := by
  rw [List.getD_eq_getElem?_getD, List.getElem?_take, if_pos h,
    ← List.getD_eq_getElem?_getD]

theorem getD_drop {l : List Nat} {n i d : Nat} :
    (l.drop n).getD i d = l.getD (n + i) d := by
  rw [List.getD_eq_getElem?_getD, List.getElem?_drop, ← List.getD_eq_getElem?_getD]

/-- The first NUL of a list sits right after its cstr contents. -/
theorem getD_strlenL : ∀ {l : List Nat}, strlenL l < l.length → l.getD (strlenL l) 1 = 0 := by
  intro l
  induction l with
  | nil => intro h; simp [strlenL, cstr] at h
  | cons b bs ih =>
    intro h
    by_cases hb : b = 0
    · simp [strlenL, cstr, hb]
    · have hs : strlenL (b :: bs) = strlenL bs + 1 := by simp [strlenL, cstr, hb]
      rw [hs] at h ⊢
      have h2 : strlenL bs < bs.length := by simpa using Nat.lt_of_succ_lt_succ h
      simpa [List.getD_cons_succ] using ih h2

/-- strlenL is bounded by the position of any NUL byte (also out of range,
where getD returns the default 1). -/
theorem strlenL_le_of_getD_zero : ∀ {l : List Nat} {i : Nat}, l.getD i 1 = 0 → strlenL l ≤ i := by
  intro l
  induction l with
  | nil => intro i _; simp [strlenL, cstr]
  | cons b bs ih =>
    intro i h
    cases i with
    | zero =>
      simp only [List.getD_cons_zero] at h
      simp [strlenL, cstr, h]
    | succ n =>
      by_cases hb : b = 0
      · simp [strlenL, cstr, hb]
      · simp only [List.getD_cons_succ] at h
        have := ih h
        have hs : strlenL (b :: bs) = strlenL bs + 1 := by simp [strlenL, cstr, hb]
        omega

/-! Field preservation of refreshState (it only writes maxrows and oldpos). -/

@[simp] theorem refreshState_mode (ml : Bool) (l : State) :
    (refreshState ml l).mode = l.mode := by
  unfold refreshState refreshMultiLineState; split <;> rfl

@[simp] theorem refreshState_smart (ml : Bool) (l : State) :
    (refreshState ml l).smart_term_connected = l.smart_term_connected := by
  unfold refreshState refreshMultiLineState; split <;> rfl

@[simp] theorem refreshState_buf (ml : Bool) (l : State) :
    (refreshState ml l).buf = l.buf := by
  unfold refreshState refreshMultiLineState; split <;> rfl

@[simp] theorem refreshState_buflen (ml : Bool) (l : State) :
    (refreshState ml l).buflen = l.buflen := by
  unfold refreshState refreshMultiLineState; split <;> rfl

@[simp] theorem refreshState_pos (ml : Bool) (l : State) :
    (refreshState ml l).pos = l.pos := by
  unfold refreshState refreshMultiLineState; split <;> rfl

@[simp] theorem refreshState_len (ml : Bool) (l : State) :
    (refreshState ml l).len = l.len := by
  unfold refreshState refreshMultiLineState; split <;> rfl

@[simp] theorem refreshState_lc (ml : Bool) (l : State) :
    (refreshState ml l).lc = l.lc := by
  unfold refreshState refreshMultiLineState; split <;> rfl

@[simp] theorem refreshState_completion_idx (ml : Bool) (l : State) :
    (refreshState ml l).completion_idx = l.completion_idx := by
  unfold refreshState refreshMultiLineState; split <;> rfl

@[simp] theorem refreshState_seq (ml : Bool) (l : State) :
    (refreshState ml l).seq = l.seq := by
  unfold refreshState refreshMultiLineState; split <;> rfl

@[simp] theorem refreshState_history_index (ml : Bool) (l : State) :
    (refreshState ml l).history_index = l.history_index := by
  unfold refreshState refreshMultiLineState; split <;> rfl

@[simp] theorem refreshState_prompt (ml : Bool) (l : State) :
    (refreshState ml l).prompt = l.prompt := by
  unfold refreshState refreshMultiLineState; split <;> rfl

@[simp] theorem refreshState_plen (ml : Bool) (l : State) :
    (refreshState ml l).plen = l.plen := by
  unfold refreshState refreshMultiLineState; split <;> rfl

/-! EInv preservation by the edit operations. -/

theorem EInv_refreshState {B : Nat} {l : State} (ml : Bool) (h : EInv B l) :
    EInv B (refreshState ml l) := by
  obtain ⟨h1, h2, h3, h4, h5⟩ := h
  refine ⟨?_, ?_, ?_, ?_, ?_⟩ <;>
    simp only [refreshState_buf, refreshState_buflen, refreshState_pos, refreshState_len] <;>
    assumption

theorem EInv_moveLeft {B : Nat} {l : State} (ml : Bool) (h : EInv B l) :
    EInv B (linenoiseEditMoveLeft ml l) := by
  obtain ⟨h1, h2, h3, h4, h5⟩ := h
  unfold linenoiseEditMoveLeft
  split
  · refine EInv_refreshState ml ⟨h1, h2, ?_, h4, h5⟩
    dsimp only
    omega
  · exact ⟨h1, h2, h3, h4, h5⟩

theorem EInv_moveRight {B : Nat} {l : State} (ml : Bool) (h : EInv B l) :
    EInv B (linenoiseEditMoveRight ml l) := by
  obtain ⟨h1, h2, h3, h4, h5⟩ := h
  unfold linenoiseEditMoveRight
  split
  · next hne =>
    refine EInv_refreshState ml ⟨h1, h2, ?_, h4, h5⟩
    dsimp only
    omega
  · exact ⟨h1, h2, h3, h4, h5⟩

theorem EInv_moveHome {B : Nat} {l : State} (ml : Bool) (h : EInv B l) :
    EInv B (linenoiseEditMoveHome ml l) := by
  obtain ⟨h1, h2, h3, h4, h5⟩ := h
  unfold linenoiseEditMoveHome
  split
  · refine EInv_refreshState ml ⟨h1, h2, ?_, h4, h5⟩
    dsimp only
    omega
  · exact ⟨h1, h2, h3, h4, h5⟩

theorem EInv_moveEnd {B : Nat} {l : State} (ml : Bool) (h : EInv B l) :
    EInv B (linenoiseEditMoveEnd ml l) := by
  obtain ⟨h1, h2, h3, h4, h5⟩ := h
  unfold linenoiseEditMoveEnd
  split
  · refine EInv_refreshState ml ⟨h1, h2, ?_, h4, h5⟩
    dsimp only
    omega
  · exact ⟨h1, h2, h3, h4, h5⟩

theorem EInv_insert {B : Nat} {l : State} (ml : Bool) (c : Nat) (h : EInv B l) :
    EInv B (linenoiseEditInsert ml l c) := by
  obtain ⟨h1, h2, h3, h4, h5⟩ := h
  unfold linenoiseEditInsert
  split
  · next hlt =>
    split
    · next heq =>
      apply EInv_refreshState
      refine ⟨?_, h2, ?_, ?_, ?_⟩ <;> dsimp only
      · simp only [List.length_set]
        exact h1
      · omega
      · omega
      · exact getD_set_self (by simp only [List.length_set]; omega)
    · next hne =>
      apply EInv_refreshState
      have hlen : (l.buf.take l.pos ++ c :: ((l.buf.drop l.pos).take (l.len - l.pos))
          ++ l.buf.drop (l.len + 1)).length = l.buflen + 1 := by
        simp only [List.length_append, List.length_take, List.length_drop, List.length_cons]
        omega
      refine ⟨?_, h2, ?_, ?_, ?_⟩ <;> dsimp only
      · simp only [List.length_set]
        exact hlen
      · omega
      · omega
      · exact getD_set_self (by rw [hlen]; omega)
  · exact ⟨h1, h2, h3, h4, h5⟩

theorem EInv_delete {B : Nat} {l : State} (ml : Bool) (h : EInv B l) :
    EInv B (linenoiseEditDelete ml l) := by
  obtain ⟨h1, h2, h3, h4, h5⟩ := h
  unfold linenoiseEditDelete
  split
  · next hg =>
    apply EInv_refreshState
    have hlen : (l.buf.take l.pos ++ ((l.buf.drop (l.pos + 1)).take (l.len - l.pos - 1))
        ++ l.buf.drop (l.len - 1)).length = l.buflen + 1 := by
      simp only [List.length_append, List.length_take, List.length_drop]
      omega
    refine ⟨?_, h2, ?_, ?_, ?_⟩ <;> dsimp only
    · simp only [List.length_set]
      exact hlen
    · omega
    · omega
    · exact getD_set_self (by rw [hlen]; omega)
  · exact ⟨h1, h2, h3, h4, h5⟩

theorem EInv_backspace {B : Nat} {l : State} (ml : Bool) (h : EInv B l) :
    EInv B (linenoiseEditBackspace ml l) := by
  obtain ⟨h1, h2, h3, h4, h5⟩ := h
  unfold linenoiseEditBackspace
  split
  · next hg =>
    apply EInv_refreshState
    have hlen : (l.buf.take (l.pos - 1) ++ ((l.buf.drop l.pos).take (l.len - l.pos))
        ++ l.buf.drop (l.len - 1)).length = l.buflen + 1 := by
      simp only [List.length_append, List.length_take, List.length_drop]
      omega
    refine ⟨?_, h2, ?_, ?_, ?_⟩ <;> dsimp only
    · simp only [List.length_set]
      exact hlen
    · omega
    · omega
    · exact getD_set_self (by rw [hlen]; omega)
  · exact ⟨h1, h2, h3, h4, h5⟩

theorem skipSpacesBack_le (buf : List Nat) : ∀ p, skipSpacesBack buf p ≤ p := by
  intro p
  induction p with
  | zero => simp [skipSpacesBack]
  | succ n ih =>
    unfold skipSpacesBack
    split
    · omega
    · omega

theorem skipWordBack_le (buf : List Nat) : ∀ p, skipWordBack buf p ≤ p := by
  intro p
  induction p with
  | zero => simp [skipWordBack]
  | succ n ih =>
    unfold skipWordBack
    split
    · omega
    · omega

theorem EInv_deletePrevWord {B : Nat} {l : State} (ml : Bool) (h : EInv B l) :
    EInv B (linenoiseEditDeletePrevWord ml l) := by
  obtain ⟨h1, h2, h3, h4, h5⟩ := h
  unfold linenoiseEditDeletePrevWord
  apply EInv_refreshState
  have hp2 : skipWordBack l.buf (skipSpacesBack l.buf l.pos) ≤ l.pos :=
    le_trans (skipWordBack_le _ _) (skipSpacesBack_le _ _)
  set p2 := skipWordBack l.buf (skipSpacesBack l.buf l.pos) with hp2def
  have hmid : ((l.buf.drop l.pos).take (l.len - l.pos + 1)).length = l.len - l.pos + 1 := by
    simp only [List.length_take, List.length_drop]
    omega
  have hlen : (l.buf.take p2 ++ ((l.buf.drop l.pos).take (l.len - l.pos + 1))
      ++ l.buf.drop (p2 + (l.len - l.pos + 1))).length = l.buflen + 1 := by
    simp only [List.length_append, List.length_take, List.length_drop]
    omega
  refine ⟨?_, h2, ?_, ?_, ?_⟩ <;> dsimp only
  · exact hlen
  · omega
  · omega
  · -- the terminator is copied along with the tail: the byte at the new
    -- length is the old buf[len] = 0
    have hidx : l.len - (l.pos - p2) = p2 + (l.len - l.pos) := by omega
    have htk : (l.buf.take p2).length = p2 := by
      simp only [List.length_take]
      omega
    have hAM : (l.buf.take p2 ++ (l.buf.drop l.pos).take (l.len - l.pos + 1)).length
        = p2 + (l.len - l.pos + 1) := by
      simp only [List.length_append, List.length_take, List.length_drop]
      omega
    rw [hidx, getD_append_left (by rw [hAM]; omega),
      getD_append_right (by rw [htk]; omega), htk, Nat.add_sub_cancel_left,
      getD_take (by omega), getD_drop]
    have hfin : l.pos + (l.len - l.pos) = l.len := by omega
    rw [hfin]
    exact h5

theorem EInv_swapChars {B : Nat} {l : State} (ml : Bool) (h : EInv B l) :
    EInv B (editSwapChars ml l) := by
  obtain ⟨h1, h2, h3, h4, h5⟩ := h
  unfold editSwapChars
  split
  · next hg =>
    apply EInv_refreshState
    refine ⟨?_, h2, ?_, h4, ?_⟩ <;> dsimp only
    · simp only [List.length_set]
      exact h1
    · split <;> omega
    · rw [getD_set_ne (by omega), getD_set_ne (by omega)]
      exact h5
  · exact ⟨h1, h2, h3, h4, h5⟩

theorem EInv_deleteWholeLine {B : Nat} {l : State} (ml : Bool) (h : EInv B l) :
    EInv B (editDeleteWholeLine ml l) := by
  obtain ⟨h1, h2, h3, h4, h5⟩ := h
  apply EInv_refreshState
  refine ⟨?_, h2, ?_, ?_, ?_⟩ <;> dsimp only
  · simp only [List.length_set]
    exact h1
  · omega
  · omega
  · exact getD_set_self (by omega)

theorem EInv_deleteToEnd {B : Nat} {l : State} (ml : Bool) (h : EInv B l) :
    EInv B (editDeleteToEnd ml l) := by
  obtain ⟨h1, h2, h3, h4, h5⟩ := h
  apply EInv_refreshState
  refine ⟨?_, h2, ?_, ?_, ?_⟩ <;> dsimp only
  · simp only [List.length_set]
    exact h1
  · omega
  · omega
  · exact getD_set_self (by omega)

theorem length_strncpyNul {dst src : List Nat} {n : Nat} (h : n ≤ dst.length) :
    (strncpyNul dst src n).length = dst.length := by
  unfold strncpyNul
  simp only [List.length_set, List.length_append, List.length_take, List.length_drop,
    List.length_replicate]
  omega

theorem getD_strncpyNul_last {dst src : List Nat} {n : Nat} (hn : 1 ≤ n)
    (h : n ≤ dst.length) : (strncpyNul dst src n).getD (n - 1) 1 = 0 := by
  unfold strncpyNul
  apply getD_set_self
  simp only [List.length_append, List.length_take, List.length_drop, List.length_replicate]
  omega

theorem strlenL_strncpyNul_le {dst src : List Nat} {n : Nat} (hn : 1 ≤ n)
    (h : n ≤ dst.length) : strlenL (strncpyNul dst src n) ≤ n - 1 :=
  strlenL_le_of_getD_zero (getD_strncpyNul_last hn h)

theorem EInv_historyNext {B : Nat} {l : State} {hi : Hist} (ml : Bool) (dir : Nat)
    (hB : 2 ≤ B) (h : EInv B l) : EInv B (linenoiseEditHistoryNext ml dir l hi).1 := by
  obtain ⟨h1, h2, h3, h4, h5⟩ := h
  simp only [linenoiseEditHistoryNext]
  split
  · set d : Int := if dir = 1 then (1 : Int) else -1 with hd
    split
    · exact ⟨h1, h2, h3, h4, h5⟩
    · split
      · exact ⟨h1, h2, h3, h4, h5⟩
      · apply EInv_refreshState
        have hbl : 1 ≤ l.buflen := by omega
        have hble : l.buflen ≤ l.buf.length := by omega
        have hlen : ∀ src : List Nat, (strncpyNul l.buf src l.buflen).length = l.buflen + 1 := by
          intro src
          rw [length_strncpyNul hble]
          exact h1
        refine ⟨?_, h2, ?_, ?_, ?_⟩ <;> dsimp only
        · exact hlen _
        · exact le_refl _
        · exact le_trans (strlenL_strncpyNul_le hbl hble) (by omega)
        · exact getD_strlenL (by
            rw [hlen _]
            exact lt_of_le_of_lt (strlenL_strncpyNul_le hbl hble) (by omega))
  · exact ⟨h1, h2, h3, h4, h5⟩

/-! Field preservation of the edit operations (none of them touches the
smart_term_connected flag, and most leave the mode unchanged). -/

@[simp] theorem insert_smart (ml : Bool) (l : State) (c : Nat) :
    (linenoiseEditInsert ml l c).smart_term_connected = l.smart_term_connected := by
  unfold linenoiseEditInsert
  repeat' split
  all_goals simp

@[simp] theorem insert_mode (ml : Bool) (l : State) (c : Nat) :
    (linenoiseEditInsert ml l c).mode = l.mode := by
  unfold linenoiseEditInsert
  repeat' split
  all_goals simp

@[simp] theorem moveLeft_smart (ml : Bool) (l : State) :
    (linenoiseEditMoveLeft ml l).smart_term_connected = l.smart_term_connected := by
  unfold linenoiseEditMoveLeft
  split <;> simp

@[simp] theorem moveLeft_mode (ml : Bool) (l : State) :
    (linenoiseEditMoveLeft ml l).mode = l.mode := by
  unfold linenoiseEditMoveLeft
  split <;> simp

@[simp] theorem moveRight_smart (ml : Bool) (l : State) :
    (linenoiseEditMoveRight ml l).smart_term_connected = l.smart_term_connected := by
  unfold linenoiseEditMoveRight
  split <;> simp

@[simp] theorem moveRight_mode (ml : Bool) (l : State) :
    (linenoiseEditMoveRight ml l).mode = l.mode := by
  unfold linenoiseEditMoveRight
  split <;> simp

@[simp] theorem moveHome_smart (ml : Bool) (l : State) :
    (linenoiseEditMoveHome ml l).smart_term_connected = l.smart_term_connected := by
  unfold linenoiseEditMoveHome
  split <;> simp

@[simp] theorem moveHome_mode (ml : Bool) (l : State) :
    (linenoiseEditMoveHome ml l).mode = l.mode := by
  unfold linenoiseEditMoveHome
  split <;> simp

@[simp] theorem moveEnd_smart (ml : Bool) (l : State) :
    (linenoiseEditMoveEnd ml l).smart_term_connected = l.smart_term_connected := by
  unfold linenoiseEditMoveEnd
  split <;> simp

@[simp] theorem moveEnd_mode (ml : Bool) (l : State) :
    (linenoiseEditMoveEnd ml l).mode = l.mode := by
  unfold linenoiseEditMoveEnd
  split <;> simp

@[simp] theorem moveEnd_buf (ml : Bool) (l : State) :
    (linenoiseEditMoveEnd ml l).buf = l.buf := by
  unfold linenoiseEditMoveEnd
  split <;> simp

@[simp] theorem moveEnd_len (ml : Bool) (l : State) :
    (linenoiseEditMoveEnd ml l).len = l.len := by
  unfold linenoiseEditMoveEnd
  split <;> simp

@[simp] theorem delete_smart (ml : Bool) (l : State) :
    (linenoiseEditDelete ml l).smart_term_connected = l.smart_term_connected := by
  unfold linenoiseEditDelete
  split <;> simp

@[simp] theorem delete_mode (ml : Bool) (l : State) :
    (linenoiseEditDelete ml l).mode = l.mode := by
  unfold linenoiseEditDelete
  split <;> simp

@[simp] theorem backspace_smart (ml : Bool) (l : State) :
    (linenoiseEditBackspace ml l).smart_term_connected = l.smart_term_connected := by
  unfold linenoiseEditBackspace
  split <;> simp

@[simp] theorem backspace_mode (ml : Bool) (l : State) :
    (linenoiseEditBackspace ml l).mode = l.mode := by
  unfold linenoiseEditBackspace
  split <;> simp

@[simp] theorem deletePrevWord_smart (ml : Bool) (l : State) :
    (linenoiseEditDeletePrevWord ml l).smart_term_connected = l.smart_term_connected := by
  unfold linenoiseEditDeletePrevWord
  simp

@[simp] theorem deletePrevWord_mode (ml : Bool) (l : State) :
    (linenoiseEditDeletePrevWord ml l).mode = l.mode := by
  unfold linenoiseEditDeletePrevWord
  simp

@[simp] theorem swapChars_smart (ml : Bool) (l : State) :
    (editSwapChars ml l).smart_term_connected = l.smart_term_connected := by
  unfold editSwapChars
  split <;> simp

@[simp] theorem swapChars_mode (ml : Bool) (l : State) :
    (editSwapChars ml l).mode = l.mode := by
  unfold editSwapChars
  split <;> simp

@[simp] theorem deleteWholeLine_smart (ml : Bool) (l : State) :
    (editDeleteWholeLine ml l).smart_term_connected = l.smart_term_connected := by
  unfold editDeleteWholeLine
  simp

@[simp] theorem deleteWholeLine_mode (ml : Bool) (l : State) :
    (editDeleteWholeLine ml l).mode = l.mode := by
  unfold editDeleteWholeLine
  simp

@[simp] theorem deleteToEnd_smart (ml : Bool) (l : State) :
    (editDeleteToEnd ml l).smart_term_connected = l.smart_term_connected := by
  unfold editDeleteToEnd
  simp

@[simp] theorem deleteToEnd_mode (ml : Bool) (l : State) :
    (editDeleteToEnd ml l).mode = l.mode := by
  unfold editDeleteToEnd
  simp

@[simp] theorem historyNext_smart (ml : Bool) (dir : Nat) (l : State) (hi : Hist) :
    (linenoiseEditHistoryNext ml dir l hi).1.smart_term_connected = l.smart_term_connected := by
  simp only [linenoiseEditHistoryNext]
  repeat' split
  all_goals simp

@[simp] theorem historyNext_mode (ml : Bool) (dir : Nat) (l : State) (hi : Hist) :
    (linenoiseEditHistoryNext ml dir l hi).1.mode = l.mode := by
  simp only [linenoiseEditHistoryNext]
  repeat' split
  all_goals simp

@[simp] theorem showCompletion_smart (ml : Bool) (l : State) :
    (lnShowCompletion ml l).smart_term_connected = l.smart_term_connected := by
  simp only [lnShowCompletion]
  split <;> simp

@[simp] theorem showCompletion_mode (ml : Bool) (l : State) :
    (lnShowCompletion ml l).mode = l.mode := by
  simp only [lnShowCompletion]
  split <;> simp

@[simp] theorem showCompletion_lc (ml : Bool) (l : State) :
    (lnShowCompletion ml l).lc = l.lc := by
  simp only [lnShowCompletion]
  split <;> simp

@[simp] theorem completeLine_smart (ml : Bool) (compl : List Nat → List (List Nat)) (l : State) :
    (completeLine ml compl l).smart_term_connected = l.smart_term_connected := by
  simp only [completeLine]
  split <;> simp

theorem EInv_showCompletion {B : Nat} {l : State} (ml : Bool) (h : EInv B l) :
    EInv B (lnShowCompletion ml l) := by
  obtain ⟨h1, h2, h3, h4, h5⟩ := h
  simp only [lnShowCompletion]
  split
  · exact ⟨h1, h2, h3, h4, h5⟩
  · exact EInv_refreshState ml ⟨h1, h2, h3, h4, h5⟩

@[simp] theorem lnRestartState_mode (l : State) :
    (lnRestartState l).mode =
      if l.smart_term_connected then Mode.getColumns else Mode.init := rfl

@[simp] theorem lnRestartState_smart (l : State) :
    (lnRestartState l).smart_term_connected = l.smart_term_connected := rfl

@[simp] theorem lnRestartState_buf (l : State) : (lnRestartState l).buf = l.buf := rfl

@[simp] theorem lnRestartState_len (l : State) : (lnRestartState l).len = l.len := rfl

@[simp] theorem lnRestartState_pos (l : State) : (lnRestartState l).pos = l.pos := rfl

@[simp] theorem lnRestartState_buflen (l : State) : (lnRestartState l).buflen = l.buflen := rfl

/-! Converters into the mode-indexed invariant. -/

theorem Inv_getColumns {B : Nat} {s : State} (h : s.mode = Mode.getColumns) : Inv B s := by
  rcases s with ⟨m, f2, f3, f4, sm, f6, f7, f8, f9, f10, f11, f12, f13, f14, f15⟩
  cases h
  cases sm <;> trivial

theorem Inv_init {B : Nat} {s : State} (h : s.mode = Mode.init) : Inv B s := by
  rcases s with ⟨m, f2, f3, f4, sm, f6, f7, f8, f9, f10, f11, f12, f13, f14, f15⟩
  cases h
  cases sm <;> trivial

theorem Inv_readRegular_smart {B : Nat} {s : State} (hm : s.mode = Mode.readRegular)
    (hs : s.smart_term_connected = true) (h : EInv B s) : Inv B s := by
  rcases s with ⟨m, f2, f3, f4, sm, f6, f7, f8, f9, f10, f11, f12, f13, f14, f15⟩
  cases hm
  cases hs
  exact h

theorem Inv_readEsc_smart {B : Nat} {s : State} (hm : s.mode = Mode.readEsc)
    (hs : s.smart_term_connected = true) (h : EInv B s) : Inv B s := by
  rcases s with ⟨m, f2, f3, f4, sm, f6, f7, f8, f9, f10, f11, f12, f13, f14, f15⟩
  cases hm
  cases hs
  exact h

theorem Inv_completion_smart {B : Nat} {s : State} (hm : s.mode = Mode.completion)
    (hs : s.smart_term_connected = true) (h : EInv B s) (hc : CInv B s) : Inv B s := by
  rcases s with ⟨m, f2, f3, f4, sm, f6, f7, f8, f9, f10, f11, f12, f13, f14, f15⟩
  cases hm
  cases hs
  exact ⟨h, hc⟩

theorem Inv_readRegular_dumb {B : Nat} {s : State} (hm : s.mode = Mode.readRegular)
    (hs : s.smart_term_connected = false) (h : DInv B s) : Inv B s := by
  rcases s with ⟨m, f2, f3, f4, sm, f6, f7, f8, f9, f10, f11, f12, f13, f14, f15⟩
  cases hm
  cases hs
  exact h

set_option maxHeartbeats 1000000 in
/-- The contract of the smart-terminal key dispatcher lnHandleCharacter: from
a regular-reading smart state satisfying the buffer invariant, one dispatched
byte delivers HandlerPost. -/
theorem lnHandleCharacter_spec {B : Nat} (ml : Bool) (compl : List Nat → List (List Nat))
    (l : State) (hst : Hist) (c : Nat)
    (hB : 2 ≤ B) (hm : l.mode = Mode.readRegular) (hsm : l.smart_term_connected = true)
    (hE : EInv B l) (hcompl : ∀ b e, e ∈ compl b → e.length + 2 ≤ B) :
    HandlerPost B (lnHandleCharacter ml compl l hst c) := by
  have neg1 : ¬ ((-1 : Int) = -2) := by decide
  have nonneg1 : ¬ ((0 : Int) ≤ -1) := by decide
  have nonneg2 : ¬ ((0 : Int) ≤ -2) := by decide
  rw [lnHandleCharacter.eq_def]
  by_cases hc9 : c = 9
  · -- TAB: completion
    rw [if_pos hc9]
    refine ⟨?_, by simp [hsm], Or.inl rfl, fun hx => absurd hx nonneg1, fun hx => absurd hx neg1⟩
    simp only [completeLine]
    split
    · exact Inv_readRegular_smart (by simpa using hm) (by simpa using hsm)
        ⟨hE.1, hE.2.1, hE.2.2.1, hE.2.2.2.1, hE.2.2.2.2⟩
    · refine Inv_completion_smart (by simp) (by simp [hsm]) ?_ ?_
      · exact EInv_showCompletion ml ⟨hE.1, hE.2.1, hE.2.2.1, hE.2.2.2.1, hE.2.2.2.2⟩
      · intro e he
        rw [showCompletion_lc] at he
        exact hcompl _ e he
  rw [if_neg hc9]
  by_cases hc13 : c = 13
  · -- ENTER: commit
    rw [if_pos hc13]
    have hbuf : (refreshState ml (if ml then linenoiseEditMoveEnd ml l else l)).buf = l.buf := by
      split <;> simp
    have hlen : (refreshState ml (if ml then linenoiseEditMoveEnd ml l else l)).len = l.len := by
      split <;> simp
    have hsm2 : (refreshState ml (if ml then linenoiseEditMoveEnd ml l else l)).smart_term_connected
        = true := by
      split <;> simp [hsm]
    refine ⟨?_, by rw [lnRestartState_smart]; exact hsm2, Or.inr (Or.inr ⟨?_, ?_⟩), ?_, ?_⟩
    · exact Inv_getColumns (by rw [lnRestartState_mode, hsm2]; simp)
    · exact Int.ofNat_nonneg _
    · show (lnRestartState _).buf.getD (Int.ofNat _).toNat 1 = 0
      have ht : (Int.ofNat (refreshState ml (if ml = true then linenoiseEditMoveEnd ml l
          else l)).len).toNat = (refreshState ml (if ml = true then linenoiseEditMoveEnd ml l
          else l)).len := rfl
      rw [lnRestartState_buf, hbuf, ht, hlen]
      exact hE.2.2.2.2
    · intro _
      rw [lnRestartState_mode, hsm2]
      simp
    · intro hx
      exfalso
      have hx2 : Int.ofNat (refreshState ml (if ml = true then linenoiseEditMoveEnd ml l
          else l)).len = -2 := hx
      have h0 : (0 : Int) ≤ Int.ofNat (refreshState ml (if ml = true then linenoiseEditMoveEnd ml l
          else l)).len := Int.ofNat_nonneg _
      rw [hx2] at h0
      exact absurd h0 (by decide)
  rw [if_neg hc13]
  by_cases hc3 : c = 3
  · -- CTRL_C
    rw [if_pos hc3]
    exact ⟨Inv_readRegular_smart hm hsm hE, hsm, Or.inl rfl,
      fun hx => absurd hx nonneg1, fun hx => absurd hx neg1⟩
  rw [if_neg hc3]
  by_cases hcbs : c = 127 ∨ c = 8
  · -- BACKSPACE / CTRL_H
    rw [if_pos hcbs]
    exact ⟨Inv_readRegular_smart (by simp [hm]) (by simp [hsm]) (EInv_backspace ml hE),
      by simp [hsm], Or.inl rfl, fun hx => absurd hx nonneg1, fun hx => absurd hx neg1⟩
  rw [if_neg hcbs]
  by_cases hc4 : c = 4
  · rw [if_pos hc4]
    by_cases hl0 : 0 < l.len
    · -- CTRL_D with nonempty buffer: delete right
      rw [if_pos hl0]
      exact ⟨Inv_readRegular_smart (by simp [hm]) (by simp [hsm]) (EInv_delete ml hE),
        by simp [hsm], Or.inl rfl, fun hx => absurd hx nonneg1, fun hx => absurd hx neg1⟩
    · -- CTRL_D with empty buffer: EOF, scratch slot popped, mode unchanged
      rw [if_neg hl0]
      exact ⟨Inv_readRegular_smart hm hsm hE, hsm, Or.inr (Or.inl rfl),
        fun hx => absurd hx nonneg2, fun _ => hm⟩
  rw [if_neg hc4]
  by_cases hc20 : c = 20
  · -- CTRL_T
    rw [if_pos hc20]
    exact ⟨Inv_readRegular_smart (by simp [hm]) (by simp [hsm]) (EInv_swapChars ml hE),
      by simp [hsm], Or.inl rfl, fun hx => absurd hx nonneg1, fun hx => absurd hx neg1⟩
  rw [if_neg hc20]
  by_cases hc2 : c = 2
  · -- CTRL_B
    rw [if_pos hc2]
    exact ⟨Inv_readRegular_smart (by simp [hm]) (by simp [hsm]) (EInv_moveLeft ml hE),
      by simp [hsm], Or.inl rfl, fun hx => absurd hx nonneg1, fun hx => absurd hx neg1⟩
  rw [if_neg hc2]
  by_cases hc6 : c = 6
  · -- CTRL_F
    rw [if_pos hc6]
    exact ⟨Inv_readRegular_smart (by simp [hm]) (by simp [hsm]) (EInv_moveRight ml hE),
      by simp [hsm], Or.inl rfl, fun hx => absurd hx nonneg1, fun hx => absurd hx neg1⟩
  rw [if_neg hc6]
  by_cases hc16 : c = 16
  · -- CTRL_P
    rw [if_pos hc16]
    exact ⟨Inv_readRegular_smart (by simp [hm]) (by simp [hsm]) (EInv_historyNext ml 1 hB hE),
      by simp [hsm], Or.inl rfl, fun hx => absurd hx nonneg1, fun hx => absurd hx neg1⟩
  rw [if_neg hc16]
  by_cases hc14 : c = 14
  · -- CTRL_N
    rw [if_pos hc14]
    exact ⟨Inv_readRegular_smart (by simp [hm]) (by simp [hsm]) (EInv_historyNext ml 0 hB hE),
      by simp [hsm], Or.inl rfl, fun hx => absurd hx nonneg1, fun hx => absurd hx neg1⟩
  rw [if_neg hc14]
  by_cases hc27 : c = 27
  · -- ESC: enter escape mode
    rw [if_pos hc27]
    exact ⟨Inv_readEsc_smart (by simp) (by simp [hsm])
        ⟨hE.1, hE.2.1, hE.2.2.1, hE.2.2.2.1, hE.2.2.2.2⟩,
      by simp [hsm], Or.inl rfl, fun hx => absurd hx nonneg1, fun hx => absurd hx neg1⟩
  rw [if_neg hc27]
  by_cases hc21 : c = 21
  · -- CTRL_U
    rw [if_pos hc21]
    exact ⟨Inv_readRegular_smart (by simp [hm]) (by simp [hsm]) (EInv_deleteWholeLine ml hE),
      by simp [hsm], Or.inl rfl, fun hx => absurd hx nonneg1, fun hx => absurd hx neg1⟩
  rw [if_neg hc21]
  by_cases hc11 : c = 11
  · -- CTRL_K
    rw [if_pos hc11]
    exact ⟨Inv_readRegular_smart (by simp [hm]) (by simp [hsm]) (EInv_deleteToEnd ml hE),
      by simp [hsm], Or.inl rfl, fun hx => absurd hx nonneg1, fun hx => absurd hx neg1⟩
  rw [if_neg hc11]
  by_cases hc1 : c = 1
  · -- CTRL_A
    rw [if_pos hc1]
    exact ⟨Inv_readRegular_smart (by simp [hm]) (by simp [hsm]) (EInv_moveHome ml hE),
      by simp [hsm], Or.inl rfl, fun hx => absurd hx nonneg1, fun hx => absurd hx neg1⟩
  rw [if_neg hc1]
  by_cases hc5 : c = 5
  · -- CTRL_E
    rw [if_pos hc5]
    exact ⟨Inv_readRegular_smart (by simp [hm]) (by simp [hsm]) (EInv_moveEnd ml hE),
      by simp [hsm], Or.inl rfl, fun hx => absurd hx nonneg1, fun hx => absurd hx neg1⟩
  rw [if_neg hc5]
  by_cases hc12 : c = 12
  · -- CTRL_L: clear screen (forces re-probing) and refresh
    rw [if_pos hc12]
    exact ⟨Inv_getColumns (by simp [linenoiseClearScreen]),
      by simp [linenoiseClearScreen, hsm], Or.inl rfl,
      fun hx => absurd hx nonneg1, fun hx => absurd hx neg1⟩
  rw [if_neg hc12]
  by_cases hc23 : c = 23
  · -- CTRL_W
    rw [if_pos hc23]
    exact ⟨Inv_readRegular_smart (by simp [hm]) (by simp [hsm]) (EInv_deletePrevWord ml hE),
      by simp [hsm], Or.inl rfl, fun hx => absurd hx nonneg1, fun hx => absurd hx neg1⟩
  rw [if_neg hc23]
  -- printable byte: insert
  exact ⟨Inv_readRegular_smart (by simp [hm]) (by simp [hsm]) (EInv_insert ml c hE),
    by simp [hsm], Or.inl rfl, fun hx => absurd hx nonneg1, fun hx => absurd hx neg1⟩

/-! Elimination of the invariant at a known mode. -/

theorem EInv_of_Inv_readRegular {B : Nat} {s : State} (hm : s.mode = Mode.readRegular)
    (hs : s.smart_term_connected = true) (h : Inv B s) : EInv B s := by
  rcases s with ⟨m, f2, f3, f4, sm, f6, f7, f8, f9, f10, f11, f12, f13, f14, f15⟩
  cases hm
  cases hs
  exact h

theorem DInv_of_Inv_readRegular {B : Nat} {s : State} (hm : s.mode = Mode.readRegular)
    (hs : s.smart_term_connected = false) (h : Inv B s) : DInv B s := by
  rcases s with ⟨m, f2, f3, f4, sm, f6, f7, f8, f9, f10, f11, f12, f13, f14, f15⟩
  cases hm
  cases hs
  exact h

theorem EInv_of_Inv_readEsc {B : Nat} {s : State} (hm : s.mode = Mode.readEsc)
    (hs : s.smart_term_connected = true) (h : Inv B s) : EInv B s := by
  rcases s with ⟨m, f2, f3, f4, sm, f6, f7, f8, f9, f10, f11, f12, f13, f14, f15⟩
  cases hm
  cases hs
  exact h

theorem Inv_elim_readEsc_dumb {B : Nat} {s : State} (hm : s.mode = Mode.readEsc)
    (hs : s.smart_term_connected = false) (h : Inv B s) : False := by
  rcases s with ⟨m, f2, f3, f4, sm, f6, f7, f8, f9, f10, f11, f12, f13, f14, f15⟩
  cases hm
  cases hs
  exact h

theorem EInv_of_Inv_completion {B : Nat} {s : State} (hm : s.mode = Mode.completion)
    (hs : s.smart_term_connected = true) (h : Inv B s) : EInv B s ∧ CInv B s := by
  rcases s with ⟨m, f2, f3, f4, sm, f6, f7, f8, f9, f10, f11, f12, f13, f14, f15⟩
  cases hm
  cases hs
  exact h

theorem Inv_elim_completion_dumb {B : Nat} {s : State} (hm : s.mode = Mode.completion)
    (hs : s.smart_term_connected = false) (h : Inv B s) : False := by
  rcases s with ⟨m, f2, f3, f4, sm, f6, f7, f8, f9, f10, f11, f12, f13, f14, f15⟩
  cases hm
  cases hs
  exact h

/-- HandlerPost entails the step postcondition. -/
theorem EditPost_of_HandlerPost {B : Nat} {r : State × Hist × Int}
    (h : HandlerPost B r) : EditPost B r := by
  obtain ⟨hi, hs, hc, hp, hn⟩ := h
  refine ⟨hi, hc, ?_, hn⟩
  intro hx
  rw [hs]
  simpa using hp hx

set_option maxHeartbeats 1000000 in
/-- The escape-sequence reader always reports -1 and preserves the editor
invariant; it never leaves the smart modes. -/
theorem lnReadEscSequence_spec {B : Nat} (ml : Bool) (l : State) (hst : Hist)
    (input : Option Nat) (hB : 2 ≤ B) (hm : l.mode = Mode.readEsc)
    (hsm : l.smart_term_connected = true) (hE : EInv B l) :
    HandlerPost B (lnReadEscSequence ml l hst input) := by
  have neg1 : ¬ ((-1 : Int) = -2) := by decide
  have nonneg1 : ¬ ((0 : Int) ≤ -1) := by decide
  cases input with
  | none =>
    exact ⟨Inv_readEsc_smart hm hsm hE, hsm, Or.inl rfl,
      fun hx => absurd hx nonneg1, fun hx => absurd hx neg1⟩
  | some c =>
    rw [lnReadEscSequence.eq_def]
    dsimp only
    by_cases h1 : 3 ≤ l.seq.length
    · rw [if_pos h1]
      exact ⟨Inv_readEsc_smart hm hsm hE, hsm, Or.inl rfl,
        fun hx => absurd hx nonneg1, fun hx => absurd hx neg1⟩
    rw [if_neg h1]
    by_cases h2 : (l.seq ++ [c]).length < 2
    · rw [if_pos h2]
      exact ⟨Inv_readEsc_smart (by simp [hm]) (by simp [hsm]) hE, by simp [hsm], Or.inl rfl,
        fun hx => absurd hx nonneg1, fun hx => absurd hx neg1⟩
    rw [if_neg h2]
    by_cases h3 : (l.seq ++ [c]).getD 0 0 = 91
    · rw [if_pos h3]
      by_cases h4 : 48 ≤ (l.seq ++ [c]).getD 1 0 ∧ (l.seq ++ [c]).getD 1 0 ≤ 57
      · rw [if_pos h4]
        by_cases h5 : (l.seq ++ [c]).length < 3
        · rw [if_pos h5]
          exact ⟨Inv_readEsc_smart (by simp [hm]) (by simp [hsm]) hE, by simp [hsm], Or.inl rfl,
            fun hx => absurd hx nonneg1, fun hx => absurd hx neg1⟩
        rw [if_neg h5]
        by_cases h6 : (l.seq ++ [c]).getD 2 0 = 126 ∧ (l.seq ++ [c]).getD 1 0 = 51
        · rw [if_pos h6]
          exact ⟨Inv_readRegular_smart rfl (by simp [hsm]) (EInv_delete ml hE),
            by simp [hsm], Or.inl rfl,
            fun hx => absurd hx nonneg1, fun hx => absurd hx neg1⟩
        · rw [if_neg h6]
          exact ⟨Inv_readRegular_smart rfl (by simp [hsm]) hE, by simp [hsm], Or.inl rfl,
            fun hx => absurd hx nonneg1, fun hx => absurd hx neg1⟩
      rw [if_neg h4]
      by_cases h7 : (l.seq ++ [c]).getD 1 0 = 65
      · rw [if_pos h7]
        exact ⟨Inv_readRegular_smart rfl (by simp [hsm]) (EInv_historyNext ml 1 hB hE),
          by simp [hsm], Or.inl rfl,
          fun hx => absurd hx nonneg1, fun hx => absurd hx neg1⟩
      rw [if_neg h7]
      by_cases h8 : (l.seq ++ [c]).getD 1 0 = 66
      · rw [if_pos h8]
        exact ⟨Inv_readRegular_smart rfl (by simp [hsm]) (EInv_historyNext ml 0 hB hE),
          by simp [hsm], Or.inl rfl,
          fun hx => absurd hx nonneg1, fun hx => absurd hx neg1⟩
      rw [if_neg h8]
      by_cases h9 : (l.seq ++ [c]).getD 1 0 = 67
      · rw [if_pos h9]
        exact ⟨Inv_readRegular_smart rfl (by simp [hsm]) (EInv_moveRight ml hE),
          by simp [hsm], Or.inl rfl,
          fun hx => absurd hx nonneg1, fun hx => absurd hx neg1⟩
      rw [if_neg h9]
      by_cases h10 : (l.seq ++ [c]).getD 1 0 = 68
      · rw [if_pos h10]
        exact ⟨Inv_readRegular_smart rfl (by simp [hsm]) (EInv_moveLeft ml hE),
          by simp [hsm], Or.inl rfl,
          fun hx => absurd hx nonneg1, fun hx => absurd hx neg1⟩
      rw [if_neg h10]
      by_cases h11 : (l.seq ++ [c]).getD 1 0 = 72
      · rw [if_pos h11]
        exact ⟨Inv_readRegular_smart rfl (by simp [hsm]) (EInv_moveHome ml hE),
          by simp [hsm], Or.inl rfl,
          fun hx => absurd hx nonneg1, fun hx => absurd hx neg1⟩
      rw [if_neg h11]
      by_cases h12 : (l.seq ++ [c]).getD 1 0 = 70
      · rw [if_pos h12]
        exact ⟨Inv_readRegular_smart rfl (by simp [hsm]) (EInv_moveEnd ml hE),
          by simp [hsm], Or.inl rfl,
          fun hx => absurd hx nonneg1, fun hx => absurd hx neg1⟩
      · rw [if_neg h12]
        exact ⟨Inv_readRegular_smart rfl (by simp [hsm]) hE, by simp [hsm], Or.inl rfl,
          fun hx => absurd hx nonneg1, fun hx => absurd hx neg1⟩
    rw [if_neg h3]
    by_cases h13 : (l.seq ++ [c]).getD 0 0 = 79
    · rw [if_pos h13]
      by_cases h14 : (l.seq ++ [c]).getD 1 0 = 72
      · rw [if_pos h14]
        exact ⟨Inv_readRegular_smart rfl (by simp [hsm]) (EInv_moveHome ml hE),
          by simp [hsm], Or.inl rfl,
          fun hx => absurd hx nonneg1, fun hx => absurd hx neg1⟩
      rw [if_neg h14]
      by_cases h15 : (l.seq ++ [c]).getD 1 0 = 70
      · rw [if_pos h15]
        exact ⟨Inv_readRegular_smart rfl (by simp [hsm]) (EInv_moveEnd ml hE),
          by simp [hsm], Or.inl rfl,
          fun hx => absurd hx nonneg1, fun hx => absurd hx neg1⟩
      · rw [if_neg h15]
        exact ⟨Inv_readRegular_smart rfl (by simp [hsm]) hE, by simp [hsm], Or.inl rfl,
          fun hx => absurd hx nonneg1, fun hx => absurd hx neg1⟩
    · rw [if_neg h13]
      exact ⟨Inv_readRegular_smart rfl (by simp [hsm]) hE, by simp [hsm], Or.inl rfl,
        fun hx => absurd hx nonneg1, fun hx => absurd hx neg1⟩

/-- Contract of the dumb-terminal handler: the dumb invariant is preserved,
the result is -1 or a committed non-negative length with the buffer
NUL-terminated there, and a commit restarts into ln_init (the terminal is
dumb). -/
theorem lnHandleCharacterDumb_spec {B : Nat} (l : State) (hst : Hist) (c : Nat)
    (hm : l.mode = Mode.readRegular) (hsm : l.smart_term_connected = false)
    (hD : DInv B l) : EditPost B (lnHandleCharacterDumb l hst c) := by
  obtain ⟨h1, h2, h3, h4⟩ := hD
  have neg1 : ¬ ((-1 : Int) = -2) := by decide
  rw [lnHandleCharacterDumb.eq_def]
  dsimp only
  by_cases hcr : c = 13 ∨ c = 10
  · rw [if_pos hcr]
    -- CR or LF: terminate at pos, restart, return pos
    refine ⟨Inv_init ?_, Or.inr (Or.inr ⟨Int.ofNat_nonneg _, ?_⟩), ?_, ?_⟩
    · simp [hsm]
    · show (lnRestartState _).buf.getD (Int.ofNat l.pos).toNat 1 = 0
      rw [lnRestartState_buf]
      exact getD_set_self (by omega)
    · intro _
      simp [hsm]
    · intro hx
      exfalso
      have hx2 : Int.ofNat l.pos = -2 := hx
      have h0 : (0 : Int) ≤ Int.ofNat l.pos := Int.ofNat_nonneg _
      rw [hx2] at h0
      exact absurd h0 (by decide)
  rw [if_neg hcr]
  by_cases hfull : l.buflen - 1 ≤ l.pos + 1
  · rw [if_pos hfull]
    -- the byte filled the buffer: forced terminator in the last slot, commit
    refine ⟨Inv_init ?_, Or.inr (Or.inr ⟨Int.ofNat_nonneg _, ?_⟩), ?_, ?_⟩
    · simp [hsm]
    · show (lnRestartState _).buf.getD (Int.ofNat (l.pos + 1)).toNat 1 = 0
      rw [lnRestartState_buf]
      have hix : (Int.ofNat (l.pos + 1)).toNat = l.buflen - 1 := by
        have : l.pos + 1 = l.buflen - 1 := by omega
        simp [this]
      rw [hix]
      exact getD_set_self (by simp only [List.length_set]; omega)
    · intro _
      simp [hsm]
    · intro hx
      exfalso
      have hx2 : Int.ofNat (l.pos + 1) = -2 := hx
      have h0 : (0 : Int) ≤ Int.ofNat (l.pos + 1) := Int.ofNat_nonneg _
      rw [hx2] at h0
      exact absurd h0 (by decide)
  · rw [if_neg hfull]
    -- stored the byte, still reading
    have nonneg1 : ¬ ((0 : Int) ≤ -1) := by decide
    refine ⟨Inv_readRegular_dumb (by simp [hm]) (by simp [hsm]) ?_, Or.inl rfl,
      fun hx => absurd hx nonneg1, fun hx => absurd hx neg1⟩
    · refine ⟨?_, h2, ?_, h4⟩ <;> dsimp only
      · simp only [List.length_set]
        exact h1
      · omega

/-- lnInitState always enters ln_read_regular with a zeroed cursor, a
NUL-terminated empty line and buflen = B - 1; the connection flag is
untouched. -/
theorem lnInitState_facts (l : State) (h : Hist) (B : Nat) (p : List Nat) (hB : 1 ≤ B) :
    (lnInitState l h B p).1.mode = Mode.readRegular ∧
    (lnInitState l h B p).1.smart_term_connected = l.smart_term_connected ∧
    EInv B (lnInitState l h B p).1 := by
  refine ⟨rfl, rfl, ?_, ?_, ?_, ?_, ?_⟩
  · show (((l.buf ++ List.replicate B 0).take B).set 0 0).length = (B - 1) + 1
    simp only [List.length_set, List.length_take, List.length_append, List.length_replicate]
    omega
  · show (B - 1) + 1 = B
    omega
  · exact le_refl _
  · exact Nat.zero_le _
  · show (((l.buf ++ List.replicate B 0).take B).set 0 0).getD 0 1 = 0
    exact getD_set_self (by
      simp only [List.length_take, List.length_append, List.length_replicate]
      omega)

/-- On a dumb terminal lnInitState establishes the dumb reading invariant
(host capacity at least 3). -/
theorem DInv_lnInitState (l : State) (h : Hist) (B : Nat) (p : List Nat) (hB : 3 ≤ B) :
    DInv B (lnInitState l h B p).1 := by
  refine ⟨?_, ?_, ?_, rfl⟩
  · show (((l.buf ++ List.replicate B 0).take B).set 0 0).length = (B - 1) + 1
    simp only [List.length_set, List.length_take, List.length_append, List.length_replicate]
    omega
  · show (B - 1) + 1 = B
    omega
  · show 0 + 2 ≤ B - 1
    omega

/-- Accepting a completion candidate with snprintf preserves the buffer
invariant when the candidate fits. -/
theorem EInv_snprintfAccept {B : Nat} {ls : State} (src : List Nat) (hB : 2 ≤ B)
    (hE : EInv B ls) (hsrc : src.length + 2 ≤ B) :
    EInv B { ls with buf := (snprintfStr ls.buf ls.buflen src).1
                     len := (snprintfStr ls.buf ls.buflen src).2
                     pos := (snprintfStr ls.buf ls.buflen src).2 } := by
  obtain ⟨h1, h2, h3, h4, h5⟩ := hE
  have hn : ls.buflen ≠ 0 := by omega
  have hw : min src.length (ls.buflen - 1) = src.length := by omega
  have hfst : (snprintfStr ls.buf ls.buflen src).1
      = src.take src.length ++ 0 :: ls.buf.drop (src.length + 1) := by
    simp only [snprintfStr, if_neg hn, hw]
  have hsnd : (snprintfStr ls.buf ls.buflen src).2 = src.length := by
    simp only [snprintfStr, if_neg hn]
  refine ⟨?_, h2, ?_, ?_, ?_⟩
  · show (snprintfStr ls.buf ls.buflen src).1.length = ls.buflen + 1
    rw [hfst]
    simp only [List.length_append, List.length_take, List.length_cons, List.length_drop]
    omega
  · exact le_refl _
  · show (snprintfStr ls.buf ls.buflen src).2 ≤ ls.buflen
    rw [hsnd]
    omega
  · show (snprintfStr ls.buf ls.buflen src).1.getD (snprintfStr ls.buf ls.buflen src).2 1 = 0
    rw [hfst, hsnd, getD_append_right (by simp only [List.length_take]; omega)]
    simp only [List.length_take, min_self, Nat.sub_self]
    rfl

set_option maxHeartbeats 1000000 in
/-- Contract of the completion-mode reader lnCompletion. -/
theorem lnCompletion_spec {B : Nat} (ml : Bool) (compl : List Nat → List (List Nat))
    (ls : State) (hst : Hist) (input : Option Nat)
    (hB : 2 ≤ B) (hm : ls.mode = Mode.completion) (hsm : ls.smart_term_connected = true)
    (hE : EInv B ls) (hC : CInv B ls)
    (hcompl : ∀ b e, e ∈ compl b → e.length + 2 ≤ B) :
    HandlerPost B (lnCompletion ml compl ls hst input) := by
  have neg1 : ¬ ((-1 : Int) = -2) := by decide
  have nonneg1 : ¬ ((0 : Int) ≤ -1) := by decide
  cases input with
  | none =>
    exact ⟨Inv_completion_smart hm hsm hE hC, hsm, Or.inl rfl,
      fun hx => absurd hx nonneg1, fun hx => absurd hx neg1⟩
  | some c =>
    rw [lnCompletion.eq_def]
    dsimp only
    by_cases hc9 : c = 9
    · rw [if_pos hc9]
      -- TAB: cycle and re-show
      refine ⟨?_, by simp [hsm], Or.inl rfl,
        fun hx => absurd hx nonneg1, fun hx => absurd hx neg1⟩
      refine Inv_completion_smart (by simp [hm]) (by simp [hsm]) ?_ ?_
      · exact EInv_showCompletion ml ⟨hE.1, hE.2.1, hE.2.2.1, hE.2.2.2.1, hE.2.2.2.2⟩
      · intro e he
        rw [showCompletion_lc] at he
        exact hC e he
    · rw [if_neg hc9]
      -- leave completion mode (maybe accepting the candidate) and
      -- re-dispatch the byte through lnHandleCharacter
      apply lnHandleCharacter_spec ml compl _ hst c hB rfl
      · by_cases hc27 : c = 27
        · rw [if_pos hc27]
          split <;> simp [hsm]
        · rw [if_neg hc27]
          split <;> simp [hsm]
      · by_cases hc27 : c = 27
        · rw [if_pos hc27]
          split
          · exact EInv_refreshState ml ⟨hE.1, hE.2.1, hE.2.2.1, hE.2.2.2.1, hE.2.2.2.2⟩
          · exact ⟨hE.1, hE.2.1, hE.2.2.1, hE.2.2.2.1, hE.2.2.2.2⟩
        · rw [if_neg hc27]
          split
          · next hidx =>
            have hmem : ls.lc.getD ls.completion_idx [] ∈ ls.lc := by
              rw [List.getD_eq_getElem _ _ hidx]
              exact List.getElem_mem _
            exact EInv_snprintfAccept _ hB hE (hC _ hmem)
          · exact ⟨hE.1, hE.2.1, hE.2.2.1, hE.2.2.2.1, hE.2.2.2.2⟩
      · exact hcompl

/-- Contract of lnReadUserInput: one byte (or none) dispatched from a
regular-reading state. -/
theorem lnReadUserInput_spec {B : Nat} (ml : Bool) (compl : List Nat → List (List Nat))
    (l : State) (hst : Hist) (input : Option Nat)
    (hB : 3 ≤ B) (hm : l.mode = Mode.readRegular) (hInv : Inv B l)
    (hcompl : ∀ b e, e ∈ compl b → e.length + 2 ≤ B) :
    EditPost B (lnReadUserInput ml compl l hst input) := by
  have neg1 : ¬ ((-1 : Int) = -2) := by decide
  have nonneg1 : ¬ ((0 : Int) ≤ -1) := by decide
  cases input with
  | none => exact ⟨hInv, Or.inl rfl, fun hx => absurd hx nonneg1, fun hx => absurd hx neg1⟩
  | some c =>
    rw [lnReadUserInput.eq_def]
    dsimp only
    by_cases hsm : l.smart_term_connected = true
    · rw [if_pos hsm]
      exact EditPost_of_HandlerPost
        (lnHandleCharacter_spec ml compl l hst c (by omega) hm hsm
          (EInv_of_Inv_readRegular hm hsm hInv) hcompl)
    · have hsm2 : l.smart_term_connected = false := by
        cases hx : l.smart_term_connected
        · rfl
        · exact absurd hx hsm
      rw [if_neg hsm]
      exact lnHandleCharacterDumb_spec l hst c hm hsm2
        (DInv_of_Inv_readRegular hm hsm2 hInv)

set_option maxHeartbeats 1000000 in
/-- The main step lemma: one linenoiseEdit invocation from any state
satisfying the editor invariant delivers EditPost (with the same host buffer
capacity B and any prompt, completion callback, multi-line flag and input
availability). -/
theorem linenoiseEdit_spec {B : Nat} (ml : Bool) (compl : List Nat → List (List Nat))
    (s : State) (h : Hist) (prompt : List Nat) (input : Option Nat)
    (hB : 3 ≤ B) (hInv : Inv B s)
    (hcompl : ∀ b e, e ∈ compl b → e.length + 2 ≤ B) :
    EditPost B (linenoiseEdit ml compl s h B prompt input) := by
  have neg1 : ¬ ((-1 : Int) = -2) := by decide
  have nonneg1 : ¬ ((0 : Int) ≤ -1) := by decide
  rw [linenoiseEdit.eq_def]
  cases hmode : s.mode with
  | readRegular =>
    exact lnReadUserInput_spec ml compl s h input hB hmode hInv hcompl
  | readEsc =>
    by_cases hsm : s.smart_term_connected = true
    · exact EditPost_of_HandlerPost
        (lnReadEscSequence_spec ml s h input (by omega) hmode hsm
          (EInv_of_Inv_readEsc hmode hsm hInv))
    · exact absurd hInv (by
        intro hx
        exact Inv_elim_readEsc_dumb hmode (by
          cases hy : s.smart_term_connected
          · rfl
          · exact absurd hy hsm) hx)
  | completion =>
    by_cases hsm : s.smart_term_connected = true
    · have hEC := EInv_of_Inv_completion hmode hsm hInv
      exact EditPost_of_HandlerPost
        (lnCompletion_spec ml compl s h input (by omega) hmode hsm hEC.1 hEC.2 hcompl)
    · exact absurd hInv (by
        intro hx
        exact Inv_elim_completion_dumb hmode (by
          cases hy : s.smart_term_connected
          · rfl
          · exact absurd hy hsm) hx)
  | init =>
    have hfacts := lnInitState_facts s h B prompt (by omega)
    by_cases hsm : (lnInitState s h B prompt).1.smart_term_connected = true
    · exact lnReadUserInput_spec ml compl _ _ input hB hfacts.1
        (Inv_readRegular_smart hfacts.1 hsm hfacts.2.2) hcompl
    · have hsm2 : (lnInitState s h B prompt).1.smart_term_connected = false := by
        cases hy : (lnInitState s h B prompt).1.smart_term_connected
        · rfl
        · exact absurd hy hsm
      exact lnReadUserInput_spec ml compl _ _ input hB hfacts.1
        (Inv_readRegular_dumb hfacts.1 hsm2 (DInv_lnInitState s h B prompt hB)) hcompl
  | getColumns =>
    have hfacts := lnInitState_facts
      { s with smart_term_connected := false, cols := 80, mode := Mode.init } h B prompt
      (by omega)
    exact lnReadUserInput_spec ml compl _ _ input hB hfacts.1
      (Inv_readRegular_dumb hfacts.1 hfacts.2.1
        (DInv_lnInitState { s with smart_term_connected := false, cols := 80, mode := Mode.init }
          h B prompt hB))
      hcompl
  | getColumns1 =>
    have hfacts := lnInitState_facts
      { s with smart_term_connected := false, cols := 80, mode := Mode.init } h B prompt
      (by omega)
    exact lnReadUserInput_spec ml compl _ _ input hB hfacts.1
      (Inv_readRegular_dumb hfacts.1 hfacts.2.1
        (DInv_lnInitState { s with smart_term_connected := false, cols := 80, mode := Mode.init }
          h B prompt hB))
      hcompl
  | getColumns2 =>
    have hfacts := lnInitState_facts
      { s with smart_term_connected := false, cols := 80, mode := Mode.init } h B prompt
      (by omega)
    exact lnReadUserInput_spec ml compl _ _ input hB hfacts.1
      (Inv_readRegular_dumb hfacts.1 hfacts.2.1
        (DInv_lnInitState { s with smart_term_connected := false, cols := 80, mode := Mode.init }
          h B prompt hB))
      hcompl

/-! The smart_term_connected flag: no engine operation ever sets it to true
(the only assignment to true sits in the dead part of getColumns). -/

theorem lnHandleCharacter_smart (ml : Bool) (compl : List Nat → List (List Nat))
    (l : State) (hst : Hist) (c : Nat) :
    (lnHandleCharacter ml compl l hst c).1.smart_term_connected = l.smart_term_connected := by
  rw [lnHandleCharacter.eq_def]
  by_cases hc9 : c = 9
  · rw [if_pos hc9]
    simp
  rw [if_neg hc9]
  by_cases hc13 : c = 13
  · rw [if_pos hc13]
    show (lnRestartState _).smart_term_connected = _
    rw [lnRestartState_smart, refreshState_smart]
    split <;> simp
  rw [if_neg hc13]
  by_cases hc3 : c = 3
  · rw [if_pos hc3]
  rw [if_neg hc3]
  by_cases hcbs : c = 127 ∨ c = 8
  · rw [if_pos hcbs]
    simp
  rw [if_neg hcbs]
  by_cases hc4 : c = 4
  · rw [if_pos hc4]
    split
    · simp
    · rfl
  rw [if_neg hc4]
  by_cases hc20 : c = 20
  · rw [if_pos hc20]
    simp
  rw [if_neg hc20]
  by_cases hc2 : c = 2
  · rw [if_pos hc2]
    simp
  rw [if_neg hc2]
  by_cases hc6 : c = 6
  · rw [if_pos hc6]
    simp
  rw [if_neg hc6]
  by_cases hc16 : c = 16
  · rw [if_pos hc16]
    simp
  rw [if_neg hc16]
  by_cases hc14 : c = 14
  · rw [if_pos hc14]
    simp
  rw [if_neg hc14]
  by_cases hc27 : c = 27
  · rw [if_pos hc27]
  rw [if_neg hc27]
  by_cases hc21 : c = 21
  · rw [if_pos hc21]
    simp
  rw [if_neg hc21]
  by_cases hc11 : c = 11
  · rw [if_pos hc11]
    simp
  rw [if_neg hc11]
  by_cases hc1 : c = 1
  · rw [if_pos hc1]
    simp
  rw [if_neg hc1]
  by_cases hc5 : c = 5
  · rw [if_pos hc5]
    simp
  rw [if_neg hc5]
  by_cases hc12 : c = 12
  · rw [if_pos hc12]
    simp [linenoiseClearScreen]
  rw [if_neg hc12]
  by_cases hc23 : c = 23
  · rw [if_pos hc23]
    simp
  rw [if_neg hc23]
  simp

theorem lnHandleCharacterDumb_smart (l : State) (hst : Hist) (c : Nat) :
    (lnHandleCharacterDumb l hst c).1.smart_term_connected = l.smart_term_connected := by
  rw [lnHandleCharacterDumb.eq_def]
  dsimp only
  by_cases hcr : c = 13 ∨ c = 10
  · rw [if_pos hcr]
    rfl
  rw [if_neg hcr]
  by_cases hfull : l.buflen - 1 ≤ l.pos + 1
  · rw [if_pos hfull]
    rfl
  · rw [if_neg hfull]

theorem lnReadUserInput_smart (ml : Bool) (compl : List Nat → List (List Nat))
    (l : State) (hst : Hist) (input : Option Nat) :
    (lnReadUserInput ml compl l hst input).1.smart_term_connected = l.smart_term_connected := by
  cases input with
  | none => rfl
  | some c =>
    rw [lnReadUserInput.eq_def]
    dsimp only
    split
    · exact lnHandleCharacter_smart ml compl l hst c
    · exact lnHandleCharacterDumb_smart l hst c

theorem lnReadEscSequence_smart (ml : Bool) (l : State) (hst : Hist) (input : Option Nat) :
    (lnReadEscSequence ml l hst input).1.smart_term_connected = l.smart_term_connected := by
  cases input with
  | none => rfl
  | some c =>
    rw [lnReadEscSequence.eq_def]
    dsimp only
    by_cases h1 : 3 ≤ l.seq.length
    · rw [if_pos h1]
    rw [if_neg h1]
    by_cases h2 : (l.seq ++ [c]).length < 2
    · rw [if_pos h2]
    rw [if_neg h2]
    by_cases h3 : (l.seq ++ [c]).getD 0 0 = 91
    · rw [if_pos h3]
      by_cases h4 : 48 ≤ (l.seq ++ [c]).getD 1 0 ∧ (l.seq ++ [c]).getD 1 0 ≤ 57
      · rw [if_pos h4]
        by_cases h5 : (l.seq ++ [c]).length < 3
        · rw [if_pos h5]
        rw [if_neg h5]
        by_cases h6 : (l.seq ++ [c]).getD 2 0 = 126 ∧ (l.seq ++ [c]).getD 1 0 = 51
        · rw [if_pos h6]
          simp
        · rw [if_neg h6]
      rw [if_neg h4]
      by_cases h7 : (l.seq ++ [c]).getD 1 0 = 65
      · rw [if_pos h7]
        simp
      rw [if_neg h7]
      by_cases h8 : (l.seq ++ [c]).getD 1 0 = 66
      · rw [if_pos h8]
        simp
      rw [if_neg h8]
      by_cases h9 : (l.seq ++ [c]).getD 1 0 = 67
      · rw [if_pos h9]
        simp
      rw [if_neg h9]
      by_cases h10 : (l.seq ++ [c]).getD 1 0 = 68
      · rw [if_pos h10]
        simp
      rw [if_neg h10]
      by_cases h11 : (l.seq ++ [c]).getD 1 0 = 72
      · rw [if_pos h11]
        simp
      rw [if_neg h11]
      by_cases h12 : (l.seq ++ [c]).getD 1 0 = 70
      · rw [if_pos h12]
        simp
      · rw [if_neg h12]
    rw [if_neg h3]
    by_cases h13 : (l.seq ++ [c]).getD 0 0 = 79
    · rw [if_pos h13]
      by_cases h14 : (l.seq ++ [c]).getD 1 0 = 72
      · rw [if_pos h14]
        simp
      rw [if_neg h14]
      by_cases h15 : (l.seq ++ [c]).getD 1 0 = 70
      · rw [if_pos h15]
        simp
      · rw [if_neg h15]
    · rw [if_neg h13]

theorem lnCompletion_smart (ml : Bool) (compl : List Nat → List (List Nat))
    (ls : State) (hst : Hist) (input : Option Nat) :
    (lnCompletion ml compl ls hst input).1.smart_term_connected = ls.smart_term_connected := by
  cases input with
  | none => rfl
  | some c =>
    rw [lnCompletion.eq_def]
    dsimp only
    by_cases hc9 : c = 9
    · rw [if_pos hc9]
      simp
    · rw [if_neg hc9]
      rw [lnHandleCharacter_smart]
      by_cases hc27 : c = 27
      · rw [if_pos hc27]
        split <;> simp
      · rw [if_neg hc27]
        split <;> simp

theorem linenoiseEdit_smart_false (ml : Bool) (compl : List Nat → List (List Nat))
    (s : State) (h : Hist) (B : Nat) (prompt : List Nat) (input : Option Nat)
    (hs : s.smart_term_connected = false) :
    (linenoiseEdit ml compl s h B prompt input).1.smart_term_connected = false := by
  rw [linenoiseEdit.eq_def]
  cases hmode : s.mode with
  | readRegular => rw [lnReadUserInput_smart]; exact hs
  | readEsc => rw [lnReadEscSequence_smart]; exact hs
  | completion => rw [lnCompletion_smart]; exact hs
  | init => rw [lnReadUserInput_smart]; exact hs
  | getColumns =>
    dsimp only [getColumns]
    rw [if_neg (by decide)]
    rw [lnReadUserInput_smart]
    rfl
  | getColumns1 =>
    dsimp only [getColumns]
    rw [if_neg (by decide)]
    rw [lnReadUserInput_smart]
    rfl
  | getColumns2 =>
    dsimp only [getColumns]
    rw [if_neg (by decide)]
    rw [lnReadUserInput_smart]
    rfl

theorem lnShowCompletion_smart2 (ml : Bool) (l : State) :
    (lnShowCompletion ml l).smart_term_connected = l.smart_term_connected :=
  showCompletion_smart ml l

theorem linenoiseRefreshEditor_smart (ml : Bool) (l : State) :
    (linenoiseRefreshEditor ml l).smart_term_connected = l.smart_term_connected := by
  rw [linenoiseRefreshEditor.eq_def]
  split
  · rfl
  · split <;> simp

theorem linenoiseUpdatePrompt_smart (ml : Bool) (p : List Nat) (l : State) :
    (linenoiseUpdatePrompt ml p l).smart_term_connected = l.smart_term_connected := by
  rw [linenoiseUpdatePrompt.eq_def, linenoiseRefreshEditor_smart]

/-- No reachable state of the engine has a smart terminal connected: the
probe is statically disabled. -/
theorem reachable_smart_false {s : State} (h : Reachable s) :
    s.smart_term_connected = false := by
  induction h with
  | start => rfl
  | step s ml compl hst B prompt input hr ih => exact linenoiseEdit_smart_false _ _ _ _ _ _ _ ih
  | clear s hr ih => exact ih
  | refreshEd s ml hr ih => rw [linenoiseRefreshEditor_smart]; exact ih
  | updPrompt s ml p hr ih => rw [linenoiseUpdatePrompt_smart]; exact ih

/-- Field facts of the dumb handler: it never touches cols or the connection
flag, and it either stays in ln_read_regular or (on commit, with the terminal
dumb) restarts into ln_init. -/
theorem lnHandleCharacterDumb_fields (l : State) (hst : Hist) (c : Nat)
    (hsm : l.smart_term_connected = false) :
    (lnHandleCharacterDumb l hst c).1.cols = l.cols ∧
    ((lnHandleCharacterDumb l hst c).1.mode = l.mode ∨
      (lnHandleCharacterDumb l hst c).1.mode = Mode.init) := by
  rw [lnHandleCharacterDumb.eq_def]
  dsimp only
  by_cases hcr : c = 13 ∨ c = 10
  · rw [if_pos hcr]
    exact ⟨rfl, Or.inr (by simp [hsm])⟩
  rw [if_neg hcr]
  by_cases hfull : l.buflen - 1 ≤ l.pos + 1
  · rw [if_pos hfull]
    exact ⟨rfl, Or.inr (by simp [hsm])⟩
  · rw [if_neg hfull]
    exact ⟨rfl, Or.inl rfl⟩

/-- After a failed probe and session initialization, one read keeps cols at
80, the terminal dumb, and the mode in ln_read_regular or (on an immediate
commit) ln_init. -/
theorem postProbe_fields (ml : Bool) (compl : List Nat → List (List Nat)) (s : State)
    (h : Hist) (B : Nat) (prompt : List Nat) (input : Option Nat) :
    (lnReadUserInput ml compl
      (lnInitState { s with smart_term_connected := false, cols := 80, mode := Mode.init }
        h B prompt).1
      (lnInitState { s with smart_term_connected := false, cols := 80, mode := Mode.init }
        h B prompt).2 input).1.cols = 80 ∧
    (lnReadUserInput ml compl
      (lnInitState { s with smart_term_connected := false, cols := 80, mode := Mode.init }
        h B prompt).1
      (lnInitState { s with smart_term_connected := false, cols := 80, mode := Mode.init }
        h B prompt).2 input).1.smart_term_connected = false ∧
    ((lnReadUserInput ml compl
      (lnInitState { s with smart_term_connected := false, cols := 80, mode := Mode.init }
        h B prompt).1
      (lnInitState { s with smart_term_connected := false, cols := 80, mode := Mode.init }
        h B prompt).2 input).1.mode = Mode.readRegular ∨
     (lnReadUserInput ml compl
      (lnInitState { s with smart_term_connected := false, cols := 80, mode := Mode.init }
        h B prompt).1
      (lnInitState { s with smart_term_connected := false, cols := 80, mode := Mode.init }
        h B prompt).2 input).1.mode = Mode.init) := by
  cases input with
  | none => exact ⟨rfl, rfl, Or.inl rfl⟩
  | some c =>
    rw [lnReadUserInput.eq_def]
    dsimp only
    rw [if_neg (by simp [lnInitState])]
    have hsm0 : (lnInitState
        { s with smart_term_connected := false, cols := 80, mode := Mode.init }
        h B prompt).1.smart_term_connected = false := by
      simp [lnInitState]
    have hcols0 : (lnInitState
        { s with smart_term_connected := false, cols := 80, mode := Mode.init }
        h B prompt).1.cols = 80 := by
      simp [lnInitState]
    refine ⟨?_, ?_, ?_⟩
    · exact (lnHandleCharacterDumb_fields _ _ c hsm0).1.trans hcols0
    · rw [lnHandleCharacterDumb_smart]
      exact hsm0
    · rcases (lnHandleCharacterDumb_fields _ _ c hsm0).2 with hx | hx
      · exact Or.inl (hx.trans (by simp [lnInitState]))
      · exact Or.inr hx

/-- Claim C3: every linenoiseEdit call made in a GetColumns mode completes
the probe in that same call with cols = 80 and smart_term_connected = false
and falls through to session initialization and reading (the state afterwards
is ln_read_regular, or ln_init after an immediate commit); it never suspends
waiting for reply bytes, and no reachable state has smart_term_connected
set. -/
theorem c3_probe_statically_disabled :
    (∀ (ml : Bool) (compl : List Nat → List (List Nat)) (s : State) (h : Hist) (B : Nat)
      (prompt : List Nat) (input : Option Nat),
      (s.mode = Mode.getColumns ∨ s.mode = Mode.getColumns1 ∨ s.mode = Mode.getColumns2) →
        (linenoiseEdit ml compl s h B prompt input).1.cols = 80 ∧
        (linenoiseEdit ml compl s h B prompt input).1.smart_term_connected = false ∧
        ((linenoiseEdit ml compl s h B prompt input).1.mode = Mode.readRegular ∨
          (linenoiseEdit ml compl s h B prompt input).1.mode = Mode.init)) ∧
    (∀ s : State, Reachable s → s.smart_term_connected = false) := by
  constructor
  · intro ml compl s h B prompt input hmode
    rcases hmode with hm | hm | hm <;>
      rw [linenoiseEdit.eq_def, hm] <;>
      dsimp only [getColumns] <;>
      rw [if_neg (by decide)] <;>
      exact postProbe_fields ml compl s h B prompt input
  · exact fun s hr => reachable_smart_false hr

/-- Witness for C3 at the statically initialized state with no byte
available. -/
theorem c3_probe_statically_disabled_witness :
    (linenoiseEdit false noCompletions initialState initialHist 8 [] none).1.cols = 80 ∧
    (linenoiseEdit false noCompletions initialState initialHist 8 [] none).1.smart_term_connected
      = false ∧
    initialState.smart_term_connected = false := by
  refine ⟨?_, ?_, ?_⟩
  · exact (c3_probe_statically_disabled.1 false noCompletions initialState initialHist 8 [] none
      (Or.inl rfl)).1
  · exact (c3_probe_statically_disabled.1 false noCompletions initialState initialHist 8 [] none
      (Or.inl rfl)).2.1
  · exact c3_probe_statically_disabled.2 initialState Reachable.start

/-- Claim C1 as stated is false on the code: the reachable engine runs the
dumb-terminal handler, which counts the typed bytes in pos and never updates
len, so after feeding the single byte 97 to the fresh engine the state has
pos = 1 and len = 0 (pos ≤ len fails) and the buffer byte at offset len is
the inserted 97, not a NUL terminator. -/
theorem c1_counterexample :
    (linenoiseEdit false noCompletions initialState initialHist 8 [] (some 97)).1.pos = 1 ∧
    (linenoiseEdit false noCompletions initialState initialHist 8 [] (some 97)).1.len = 0 ∧
    ¬ ((linenoiseEdit false noCompletions initialState initialHist 8 [] (some 97)).1.pos
        ≤ (linenoiseEdit false noCompletions initialState initialHist 8 [] (some 97)).1.len) ∧
    ¬ ((linenoiseEdit false noCompletions initialState initialHist 8 [] (some 97)).1.buf.getD
        (linenoiseEdit false noCompletions initialState initialHist 8 [] (some 97)).1.len 1
        = 0) := by
  decide

/-- Claim C1 (amended): every linenoiseEdit step from a state satisfying the
editor invariant preserves it: on the smart-terminal paths 0 ≤ pos ≤ len <
buflen with buf[len] = 0 (provided every completion candidate fits in the
buffer), while the reachable dumb-terminal path maintains pos + 2 ≤ buflen
with len pinned at 0, NUL-terminating only on commit. -/
theorem c1_step_invariant {B : Nat} (ml : Bool) (compl : List Nat → List (List Nat))
    (s : State) (h : Hist) (prompt : List Nat) (input : Option Nat)
    (hB : 3 ≤ B) (hInv : Inv B s)
    (hcompl : ∀ b e, e ∈ compl b → e.length + 2 ≤ B) :
    Inv B (linenoiseEdit ml compl s h B prompt input).1 :=
  (linenoiseEdit_spec ml compl s h prompt input hB hInv hcompl).1

/-- Witness for C1 (amended) at a concrete smart editing state fed the byte
97. -/
theorem c1_step_invariant_witness :
    Inv 8 (linenoiseEdit false noCompletions smartReadState scratchHist 8 [] (some 97)).1 := by
  have hInv : EInv 8 smartReadState := by decide
  exact c1_step_invariant false noCompletions smartReadState scratchHist [] (some 97)
    (by decide) hInv (fun b e he => absurd he (List.not_mem_nil e))

/-- Claim C2 as stated is false on the code: committing an empty line (the
first byte fed to the fresh engine is CR) returns 0, which is not positive,
while the machine restarts (mode ln_init) exactly as for any commit. -/
theorem c2_counterexample :
    (linenoiseEdit false noCompletions initialState initialHist 8 [] (some 13)).2.2 = 0 ∧
    (linenoiseEdit false noCompletions initialState initialHist 8 [] (some 13)).1.mode
      = Mode.init ∧
    ¬ (0 < (linenoiseEdit false noCompletions initialState initialHist 8 [] (some 13)).2.2) := by
  decide

/-- Claim C2 (amended): every linenoiseEdit call from a state satisfying the
editor invariant returns -1 (need more input, interrupt or error), -2 (EOF)
or the committed line's length, a non-negative value (zero for an empty
line) at which the returned buffer is NUL-terminated. -/
theorem c2_return_classification {B : Nat} (ml : Bool) (compl : List Nat → List (List Nat))
    (s : State) (h : Hist) (prompt : List Nat) (input : Option Nat)
    (hB : 3 ≤ B) (hInv : Inv B s)
    (hcompl : ∀ b e, e ∈ compl b → e.length + 2 ≤ B) :
    (linenoiseEdit ml compl s h B prompt input).2.2 = -1 ∨
    (linenoiseEdit ml compl s h B prompt input).2.2 = -2 ∨
    (0 ≤ (linenoiseEdit ml compl s h B prompt input).2.2 ∧
      (linenoiseEdit ml compl s h B prompt input).1.buf.getD
        (linenoiseEdit ml compl s h B prompt input).2.2.toNat 1 = 0) :=
  (linenoiseEdit_spec ml compl s h prompt input hB hInv hcompl).2.1

/-- Witness for C2 (amended) at the fresh engine fed CR. -/
theorem c2_return_classification_witness :
    (linenoiseEdit false noCompletions initialState initialHist 8 [] (some 13)).2.2 = -1 ∨
    (linenoiseEdit false noCompletions initialState initialHist 8 [] (some 13)).2.2 = -2 ∨
    (0 ≤ (linenoiseEdit false noCompletions initialState initialHist 8 [] (some 13)).2.2 ∧
      (linenoiseEdit false noCompletions initialState initialHist 8 [] (some 13)).1.buf.getD
        (linenoiseEdit false noCompletions initialState initialHist 8 [] (some 13)).2.2.toNat 1
        = 0) :=
  c2_return_classification false noCompletions initialState initialHist [] (some 13)
    (by decide) trivial (fun b e he => absurd he (List.not_mem_nil e))

/-- Claim C4 as stated is false on the code: in the reachable engine the
regular-reading mode runs the dumb handler (smart_term_connected is false),
which treats 0x04 as an ordinary byte: from a fresh reading state with an
empty buffer, feeding 0x04 returns -1 (not Eof) and stores the byte, and the
history scratch slot is not popped. -/
theorem c4_counterexample :
    dumbReadState.mode = Mode.readRegular ∧
    dumbReadState.len = 0 ∧
    (linenoiseEdit false noCompletions dumbReadState scratchHist 8 [] (some 4)).2.2 = -1 ∧
    (linenoiseEdit false noCompletions dumbReadState scratchHist 8 [] (some 4)).2.1.entries
      = scratchHist.entries ∧
    ¬ ((linenoiseEdit false noCompletions dumbReadState scratchHist 8 [] (some 4)).2.2 = -2) := by
  decide

/-- Claim C4 (amended): with the smart-terminal handler in effect
(smart_term_connected = true), feeding 0x04 to a regular-reading state whose
buffer is empty makes the step return Eof (-2) and pop the history scratch
slot. -/
theorem c4_ctrl_d_eof_smart (ml : Bool) (compl : List Nat → List (List Nat)) (l : State)
    (h : Hist) (B : Nat) (p : List Nat)
    (hm : l.mode = Mode.readRegular) (hsm : l.smart_term_connected = true) (hl : l.len = 0) :
    (linenoiseEdit ml compl l h B p (some 4)).2.2 = -2 ∧
    (linenoiseEdit ml compl l h B p (some 4)).2.1.entries = h.entries.dropLast ∧
    (h.entries ≠ [] →
      (linenoiseEdit ml compl l h B p (some 4)).2.1.entries.length + 1 = h.entries.length) := by
  have hred : linenoiseEdit ml compl l h B p (some 4) = (l, historyPop h, -2) := by
    rw [linenoiseEdit.eq_def, hm]
    dsimp only
    rw [lnReadUserInput.eq_def]
    dsimp only
    rw [if_pos hsm, lnHandleCharacter.eq_def]
    rw [if_neg (by decide : ¬ (4 = 9))]
    rw [if_neg (by decide : ¬ (4 = 13))]
    rw [if_neg (by decide : ¬ (4 = 3))]
    rw [if_neg (by decide : ¬ (4 = 127 ∨ 4 = 8))]
    rw [if_pos (by decide : 4 = 4)]
    rw [if_neg (by omega : ¬ (0 < l.len))]
  rw [hred]
  refine ⟨rfl, rfl, ?_⟩
  intro hne
  show (h.entries.dropLast).length + 1 = h.entries.length
  rw [List.length_dropLast]
  have := List.length_pos.mpr hne
  omega

/-- Witness for C4 (amended) at a concrete smart reading state with the
scratch slot seeded. -/
theorem c4_ctrl_d_eof_smart_witness :
    (linenoiseEdit false noCompletions smartReadState scratchHist 8 [] (some 4)).2.2 = -2 ∧
    (linenoiseEdit false noCompletions smartReadState scratchHist 8 [] (some 4)).2.1.entries
      = scratchHist.entries.dropLast ∧
    (scratchHist.entries ≠ [] →
      (linenoiseEdit false noCompletions smartReadState scratchHist 8 []
        (some 4)).2.1.entries.length + 1 = scratchHist.entries.length) :=
  c4_ctrl_d_eof_smart false noCompletions smartReadState scratchHist 8 [] rfl rfl rfl

/-- Claim C5 as stated is false on the code: a step that returns Eof (-2)
does not restart the machine at all: from a smart regular-reading state with
an empty buffer, Ctrl-D returns -2 and the mode stays ln_read_regular even
though a smart terminal is connected (the claim requires ln_getColumns). -/
theorem c5_counterexample :
    (linenoiseEdit false noCompletions smartReadState scratchHist 8 [] (some 4)).2.2 = -2 ∧
    (linenoiseEdit false noCompletions smartReadState scratchHist 8 [] (some 4)).1.mode
      = Mode.readRegular ∧
    (linenoiseEdit false noCompletions smartReadState scratchHist 8 []
      (some 4)).1.smart_term_connected = true ∧
    ¬ ((linenoiseEdit false noCompletions smartReadState scratchHist 8 [] (some 4)).1.mode
        = Mode.getColumns) := by
  decide

/-- Claim C5 (amended): after every step that returns Committed (a
non-negative length), the mode is GetColumns if a smart terminal was detected
and Init otherwise; after a step that returns Eof (-2) the machine stays in
ReadRegular (no restart takes place). -/
theorem c5_restart_after_commit {B : Nat} (ml : Bool) (compl : List Nat → List (List Nat))
    (s : State) (h : Hist) (prompt : List Nat) (input : Option Nat)
    (hB : 3 ≤ B) (hInv : Inv B s)
    (hcompl : ∀ b e, e ∈ compl b → e.length + 2 ≤ B) :
    (0 ≤ (linenoiseEdit ml compl s h B prompt input).2.2 →
      (linenoiseEdit ml compl s h B prompt input).1.mode =
        (if (linenoiseEdit ml compl s h B prompt input).1.smart_term_connected then
          Mode.getColumns else Mode.init)) ∧
    ((linenoiseEdit ml compl s h B prompt input).2.2 = -2 →
      (linenoiseEdit ml compl s h B prompt input).1.mode = Mode.readRegular) :=
  ⟨(linenoiseEdit_spec ml compl s h prompt input hB hInv hcompl).2.2.1,
   (linenoiseEdit_spec ml compl s h prompt input hB hInv hcompl).2.2.2⟩

/-- Witness for C5 (amended) at the fresh engine fed CR (an immediate empty
commit on the dumb path: the machine restarts into ln_init). -/
theorem c5_restart_after_commit_witness :
    (0 ≤ (linenoiseEdit false noCompletions initialState initialHist 8 [] (some 13)).2.2 ∧
      (linenoiseEdit false noCompletions initialState initialHist 8 [] (some 13)).1.mode
        = Mode.init) ∧
    (0 ≤ (linenoiseEdit false noCompletions initialState initialHist 8 [] (some 13)).2.2 →
      (linenoiseEdit false noCompletions initialState initialHist 8 [] (some 13)).1.mode =
        (if (linenoiseEdit false noCompletions initialState initialHist 8 []
            (some 13)).1.smart_term_connected then Mode.getColumns else Mode.init)) := by
  have happ := @c5_restart_after_commit 8 false noCompletions initialState initialHist []
    (some 13) (by decide) trivial (fun b e he => absurd he (List.not_mem_nil e))
  refine ⟨⟨by decide, ?_⟩, happ.1⟩
  have hx := happ.1 (by decide)
  rw [hx]
  decide

/-! ## The history store invariant (C6) -/

theorem getLast?_tail {α : Type} : ∀ (l : List α), l.tail ≠ [] → l.tail.getLast? = l.getLast?
  | _ :: _ :: _, _ => List.getLast?_cons_cons.symm
  | [], h => absurd rfl h
  | [_], h => absurd rfl h

theorem HistWF_add {h : Hist} (wf : HistWF h) (line : List Nat) :
    HistWF (linenoiseHistoryAdd h line) := by
  rw [linenoiseHistoryAdd]
  by_cases h0 : h.max_len = 0
  · rw [if_pos h0]
    exact wf
  rw [if_neg h0]
  by_cases hdup : h.entries ≠ [] ∧ h.entries.getLast? = some line
  · rw [if_pos hdup]
    exact wf
  rw [if_neg hdup]
  push_neg at hdup
  constructor
  · show (_ ++ [line]).length ≤ h.max_len
    rw [List.length_append, List.length_singleton]
    by_cases hfull : h.entries.length = h.max_len
    · rw [if_pos hfull]
      rw [List.length_drop]
      omega
    · rw [if_neg hfull]
      have := wf.1
      omega
  · show List.Chain' (· ≠ ·) (_ ++ [line])
    rw [List.chain'_append]
    refine ⟨?_, List.chain'_singleton line, ?_⟩
    · by_cases hfull : h.entries.length = h.max_len
      · rw [if_pos hfull]
        rw [List.drop_one]
        exact wf.2.tail
      · rw [if_neg hfull]
        exact wf.2
    · intro x hx y hy
      rw [Option.mem_def, List.head?_cons, Option.some_inj] at hy
      subst hy
      by_cases hfull : h.entries.length = h.max_len
      · rw [if_pos hfull] at hx
        rw [Option.mem_def] at hx
        have hne : h.entries.tail ≠ [] := by
          intro hnil
          rw [List.drop_one, hnil] at hx
          exact Option.noConfusion hx
        rw [List.drop_one, getLast?_tail h.entries hne] at hx
        intro hxy
        subst hxy
        exact (hdup (by rintro hn; rw [hn] at hx; exact Option.noConfusion hx)).elim
          (by rw [hx])
      · rw [if_neg hfull, Option.mem_def] at hx
        intro hxy
        subst hxy
        exact (hdup (by rintro hn; rw [hn] at hx; exact Option.noConfusion hx)).elim
          (by rw [hx])

theorem HistWF_setMaxLen {h : Hist} (wf : HistWF h) (n : Nat) :
    HistWF (linenoiseHistorySetMaxLen h n) := by
  rw [linenoiseHistorySetMaxLen]
  by_cases hn : n < 1
  · rw [if_pos hn]
    exact wf
  rw [if_neg hn]
  constructor
  · show (h.entries.drop _).length ≤ n
    rw [List.length_drop]
    omega
  · show List.Chain' (· ≠ ·) (h.entries.drop _)
    exact wf.2.suffix (List.drop_suffix _ _)

theorem HistWF_foldl_add {ls : List (List Nat)} : ∀ {h : Hist}, HistWF h →
    HistWF (ls.foldl (fun h line => linenoiseHistoryAdd h (chopLine line)) h) := by
  induction ls with
  | nil => intro h wf; exact wf
  | cons e ls ih => intro h wf; exact ih (HistWF_add wf (chopLine e))

theorem HistWF_load {h : Hist} (wf : HistWF h) (bs : List Nat) :
    HistWF (linenoiseHistoryLoad h bs) := by
  rw [linenoiseHistoryLoad]
  exact HistWF_foldl_add wf

/-- Claim C6 as stated is false on the code: the history-navigation editing
step writes the edited buffer back into the slot the user navigated away
from without any duplicate check, so navigating backwards (Ctrl-P) in a
session whose buffer was edited to equal the adjacent stored entry leaves two
byte-for-byte equal adjacent entries in the store. -/
theorem c6_counterexample :
    EInv 8 navReadState ∧ HistWF navHist ∧
    (linenoiseEdit false noCompletions navReadState navHist 8 [] (some 16)).2.1.entries
      = [[121], [121], []] ∧
    ¬ HistWF (linenoiseEdit false noCompletions navReadState navHist 8 [] (some 16)).2.1 := by
  have hent : (linenoiseEdit false noCompletions navReadState navHist 8 []
      (some 16)).2.1.entries = [[121], [121], []] := by decide
  refine ⟨by decide, ⟨by decide, ?_⟩, hent, ?_⟩
  · rw [show navHist.entries = [[120], [121], []] from rfl,
      List.chain'_cons, List.chain'_cons]
    exact ⟨by decide, by decide, List.chain'_singleton _⟩
  · intro hwf
    have hch := hwf.2
    rw [hent, List.chain'_cons] at hch
    exact hch.1 rfl

/-- Claim C6 (amended): under any sequence of the host-callable history store
operations (history_add, history_set_max_len, history_load), a store within
capacity and free of adjacent duplicate entries stays within capacity and
free of adjacent duplicates.  (The editing steps are excluded: history
navigation writes the scratch buffer back unconditionally and can create
adjacent duplicates.) -/
theorem c6_store_invariant (h : Hist) (ops : List HistOp) (wf : HistWF h) :
    HistWF (applyHistOps h ops) := by
  induction ops generalizing h with
  | nil => exact wf
  | cons op ops ih =>
    show HistWF (applyHistOps (applyHistOp h op) ops)
    apply ih
    cases op with
    | add line => exact HistWF_add wf line
    | setMax n => exact HistWF_setMaxLen wf n
    | load bs => exact HistWF_load wf bs

/-- Witness for C6 (amended): two adds of the same line then a capacity cut,
applied to the empty store. -/
theorem c6_store_invariant_witness :
    HistWF (applyHistOps initialHist
      [HistOp.add [97], HistOp.add [97], HistOp.setMax 1]) :=
  c6_store_invariant initialHist [HistOp.add [97], HistOp.add [97], HistOp.setMax 1]
    ⟨by decide, trivial⟩

/-! ## The history file round trip (C7) -/

theorem contains_eq_false_of_not_mem {l : List Nat} {a : Nat} (h : a ∉ l) :
    l.contains a = false := by
  rw [← Bool.not_eq_true]
  intro hc
  exact h (List.elem_iff.mp hc)

theorem fgetsLine_eq : ∀ (e : List Nat) (n : Nat) (rest : List Nat),
    e.length ≤ n → 10 ∉ e → fgetsLine (n + 1) (e ++ 10 :: rest) = (e ++ [10], rest) := by
  intro e
  induction e with
  | nil =>
    intro n rest _ _
    show fgetsLine (n + 1) (10 :: rest) = ([10], rest)
    rw [fgetsLine]
    rw [if_pos rfl]
  | cons b e ih =>
    intro n rest hlen h10
    have hb : b ≠ 10 := fun hh => h10 (hh ▸ List.mem_cons_self b e)
    cases n with
    | zero => simp at hlen
    | succ n =>
      show fgetsLine (n + 1 + 1) (b :: (e ++ 10 :: rest)) = (b :: (e ++ [10]), rest)
      rw [fgetsLine]
      rw [if_neg hb]
      rw [ih n rest (by simpa using hlen) (fun hm => h10 (List.mem_cons_of_mem b hm))]

theorem fgetsSplitGo_cons (f : Nat) (s : List Nat) (hs : s ≠ []) :
    fgetsSplitGo (f + 1) s
      = (fgetsLine 4095 s).1 :: fgetsSplitGo f (fgetsLine 4095 s).2 := by
  cases s with
  | nil => exact absurd rfl hs
  | cons b bs => rfl

theorem fgetsSplitGo_save : ∀ (es : List (List Nat)) (fuel : Nat),
    (∀ e ∈ es, e.length ≤ 4094 ∧ 10 ∉ e) → es.length ≤ fuel →
    fgetsSplitGo fuel (es.foldr (fun e acc => e ++ 10 :: acc) [])
      = es.map (fun e => e ++ [10]) := by
  intro es
  induction es with
  | nil =>
    intro fuel _ _
    cases fuel <;> rfl
  | cons e es ih =>
    intro fuel hall hfuel
    cases fuel with
    | zero => simp at hfuel
    | succ f =>
      have hne : e ++ 10 :: es.foldr (fun e acc => e ++ 10 :: acc) [] ≠ [] := by
        intro hnil
        have := congrArg List.length hnil
        simp at this
      show fgetsSplitGo (f + 1) (e ++ 10 :: es.foldr (fun e acc => e ++ 10 :: acc) [])
        = (e ++ [10]) :: es.map (fun e => e ++ [10])
      rw [fgetsSplitGo_cons f _ hne]
      rw [show (4095 : Nat) = 4094 + 1 from rfl,
        fgetsLine_eq e 4094 _ (hall e (List.mem_cons_self e es)).1
          (hall e (List.mem_cons_self e es)).2]
      rw [ih f (fun x hx => hall x (List.mem_cons_of_mem e hx)) (by simpa using hfuel)]

theorem saveBytes_length (es : List (List Nat)) :
    es.length ≤ (es.foldr (fun e acc => e ++ 10 :: acc) []).length := by
  induction es with
  | nil => exact Nat.le_refl 0
  | cons e es ih =>
    show es.length + 1 ≤ (e ++ 10 :: es.foldr (fun e acc => e ++ 10 :: acc) []).length
    rw [List.length_append]
    simp only [List.length_cons]
    omega

theorem indexOf_append_self {e : List Nat} (h10 : 10 ∉ e) :
    (e ++ [10]).indexOf 10 = e.length := by
  induction e with
  | nil => decide
  | cons b e ih =>
    have hb : b ≠ 10 := fun hh => h10 (hh ▸ List.mem_cons_self b e)
    rw [List.cons_append, List.indexOf_cons]
    rw [beq_eq_false_iff_ne.mpr hb]
    show (e ++ [10]).indexOf 10 + 1 = e.length + 1
    rw [ih (fun hm => h10 (List.mem_cons_of_mem b hm))]

theorem chopLine_append_lf {e : List Nat} (h10 : 10 ∉ e) (h13 : 13 ∉ e) :
    chopLine (e ++ [10]) = e := by
  rw [chopLine]
  rw [contains_eq_false_of_not_mem (a := 13) (by simp [h13])]
  rw [if_neg Bool.false_ne_true]
  rw [indexOf_append_self h10, List.take_left]

theorem load_chunks : ∀ (es : List (List Nat)) (h : Hist),
    (∀ e ∈ es, e.length ≤ 4094 ∧ 10 ∉ e ∧ 13 ∉ e) →
    h.entries.length + es.length ≤ h.max_len →
    List.Chain' (· ≠ ·) (h.entries ++ es) →
    (es.map (fun e => e ++ [10])).foldl
        (fun h line => linenoiseHistoryAdd h (chopLine line)) h
      = { max_len := h.max_len, entries := h.entries ++ es } := by
  intro es
  induction es with
  | nil =>
    intro h _ _ _
    show h = { max_len := h.max_len, entries := h.entries ++ [] }
    rw [List.append_nil]
  | cons e es ih =>
    intro h hall hcap hchain
    show (es.map (fun e => e ++ [10])).foldl
        (fun h line => linenoiseHistoryAdd h (chopLine line))
        (linenoiseHistoryAdd h (chopLine (e ++ [10])))
      = { max_len := h.max_len, entries := h.entries ++ e :: es }
    rw [chopLine_append_lf (hall e (List.mem_cons_self e es)).2.1
      (hall e (List.mem_cons_self e es)).2.2]
    have hadd : linenoiseHistoryAdd h e
        = { max_len := h.max_len, entries := h.entries ++ [e] } := by
      rw [linenoiseHistoryAdd]
      rw [if_neg (by simp at hcap ⊢; omega)]
      rw [if_neg (by
        rintro ⟨hne, hlast⟩
        rw [List.chain'_append] at hchain
        exact hchain.2.2 e (Option.mem_def.mpr hlast) e
          (Option.mem_def.mpr List.head?_cons) rfl)]
      rw [if_neg (by simp at hcap ⊢; omega)]
    rw [hadd]
    rw [ih { max_len := h.max_len, entries := h.entries ++ [e] }
      (fun x hx => hall x (List.mem_cons_of_mem e hx))
      (by simp; simp at hcap; omega)
      (by rw [List.append_assoc]; exact hchain)]
    rw [List.append_assoc]
    rfl

/-- Claim C7 as stated is false on the code: loading goes through
linenoiseHistoryAdd, whose consecutive-duplicate guard drops the second of
two adjacent equal entries, so a store holding the same non-empty newline-free
short line twice in a row saves two lines but loads back as a single
entry. -/
theorem c7_counterexample :
    (∀ e ∈ ({ max_len := 100, entries := [[97], [97]] } : Hist).entries,
        e ≠ [] ∧ e.length ≤ 4094 ∧ 10 ∉ e) ∧
    (linenoiseHistoryLoad initialHist
        (linenoiseHistorySave { max_len := 100, entries := [[97], [97]] })).entries
      = [[97]] ∧
    ¬ ((linenoiseHistoryLoad initialHist
        (linenoiseHistorySave { max_len := 100, entries := [[97], [97]] })).entries
      = [[97], [97]]) := by
  decide

/-- Claim C7 (amended): a history store whose entries are lines of at most
4094 bytes containing neither LF nor CR, with no two adjacent entries equal
and fitting the capacity of the target store, saves to a file that loads back
into an empty store as exactly the same sequence of entries.  (Adjacent
duplicates must be excluded because loading re-runs the add-time duplicate
guard; they cannot occur in a store built through history_add.) -/
theorem c7_roundtrip (h : Hist) (m : Nat)
    (hlen : h.entries.length ≤ m)
    (_hne : ∀ e ∈ h.entries, e ≠ [])
    (hcap : ∀ e ∈ h.entries, e.length ≤ 4094)
    (hlf : ∀ e ∈ h.entries, 10 ∉ e)
    (hcr : ∀ e ∈ h.entries, 13 ∉ e)
    (hchain : List.Chain' (· ≠ ·) h.entries) :
    (linenoiseHistoryLoad { max_len := m, entries := [] }
        (linenoiseHistorySave h)).entries
      = h.entries := by
  rw [linenoiseHistoryLoad, linenoiseHistorySave, fgetsSplit]
  rw [fgetsSplitGo_save h.entries _ (fun e he => ⟨hcap e he, hlf e he⟩)
    (saveBytes_length h.entries)]
  rw [load_chunks h.entries { max_len := m, entries := [] }
    (fun e he => ⟨hcap e he, hlf e he, hcr e he⟩)
    (by simpa using hlen)
    (by simpa using hchain)]
  exact List.nil_append h.entries

/-- Witness for C7 (amended) at a two-entry store saved and reloaded into an
empty store of capacity 5. -/
theorem c7_roundtrip_witness :
    (linenoiseHistoryLoad { max_len := 5, entries := [] }
        (linenoiseHistorySave { max_len := 100, entries := [[97], [98, 99]] })).entries
      = [[97], [98, 99]] :=
  c7_roundtrip { max_len := 100, entries := [[97], [98, 99]] } 5
    (by decide) (by decide) (by decide) (by decide) (by decide)
    (by rw [List.chain'_cons]; exact ⟨by decide, List.chain'_singleton _⟩)

/-! ## Dumb-terminal auto-commit (C9) -/

/-- Claim C9: with no smart terminal connected, a regular-reading step whose
byte is neither CR nor LF and raises pos to buflen - 1 commits the line in
that same step: the returned value is the accumulated length buflen - 1, the
buffer carries a forced NUL terminator in its last slot (index buflen - 1),
and the machine restarts into ln_init for a fresh session. -/
theorem c9_dumb_autocommit (ml : Bool) (compl : List Nat → List (List Nat)) (l : State)
    (h : Hist) (B : Nat) (p : List Nat) (c : Nat)
    (hm : l.mode = Mode.readRegular) (hsm : l.smart_term_connected = false)
    (hc13 : c ≠ 13) (hc10 : c ≠ 10)
    (hpos : l.pos + 2 = l.buflen) (hbl : l.buflen ≤ l.buf.length) :
    (linenoiseEdit ml compl l h B p (some c)).2.2 = Int.ofNat (l.buflen - 1) ∧
    (linenoiseEdit ml compl l h B p (some c)).1.pos = l.pos + 1 ∧
    (linenoiseEdit ml compl l h B p (some c)).1.mode = Mode.init ∧
    (linenoiseEdit ml compl l h B p (some c)).1.buf.getD (l.buflen - 1) 1 = 0 := by
  have hred : linenoiseEdit ml compl l h B p (some c) =
      (lnRestartState { l with buf := (l.buf.set l.pos c).set (l.buflen - 1) 0
                               pos := l.pos + 1 }, h, Int.ofNat (l.pos + 1)) := by
    rw [linenoiseEdit.eq_def, hm]
    dsimp only
    rw [lnReadUserInput.eq_def]
    dsimp only
    rw [if_neg (by rw [hsm]; exact Bool.false_ne_true)]
    rw [lnHandleCharacterDumb.eq_def]
    dsimp only
    rw [if_neg (by rintro (h13 | h10); exacts [hc13 h13, hc10 h10])]
    rw [if_pos (show l.buflen - 1 ≤ l.pos + 1 by omega)]
    rw [hm]
  rw [hred]
  refine ⟨?_, ?_, ?_, ?_⟩
  · show Int.ofNat (l.pos + 1) = Int.ofNat (l.buflen - 1)
    rw [show l.pos + 1 = l.buflen - 1 by omega]
  · simp [lnRestartState]
  · simp [lnRestartState, hsm]
  · show ((l.buf.set l.pos c).set (l.buflen - 1) 0).getD (l.buflen - 1) 1 = 0
    exact getD_set_self (by rw [List.length_set]; omega)

/-- Witness for C9 at a dumb reading state one byte short of the capacity
bound (buflen 7, pos 5), fed the letter byte 97. -/
theorem c9_dumb_autocommit_witness :
    (linenoiseEdit false noCompletions { dumbReadState with pos := 5 } scratchHist 8 []
      (some 97)).2.2 = Int.ofNat (({ dumbReadState with pos := 5 } : State).buflen - 1) ∧
    (linenoiseEdit false noCompletions { dumbReadState with pos := 5 } scratchHist 8 []
      (some 97)).1.pos = ({ dumbReadState with pos := 5 } : State).pos + 1 ∧
    (linenoiseEdit false noCompletions { dumbReadState with pos := 5 } scratchHist 8 []
      (some 97)).1.mode = Mode.init ∧
    (linenoiseEdit false noCompletions { dumbReadState with pos := 5 } scratchHist 8 []
      (some 97)).1.buf.getD (({ dumbReadState with pos := 5 } : State).buflen - 1) 1 = 0 :=
  c9_dumb_autocommit false noCompletions { dumbReadState with pos := 5 } scratchHist 8 [] 97
    rfl rfl (by decide) (by decide) rfl (by decide)

/-! ## The first multi-line refresh wraps around (C10) -/

/-- Claim C10 fails on the code: the state reached by the very first engine
step of a multi-line session (prompt "p ", host capacity 8) is a freshly
initialized reading state with maxrows = 0 and oldpos = 0, so at the next
invocation of the multi-line renderer old_rows = 0 while rpos = 1: both
old_rows >= rpos and old_rows >= 1 fail, and the size_t differences
old_rows - rpos (the rows to move down) and old_rows - 1 (the bound of the
clear loop) wrap to 2^64 - 1. -/
theorem c10_first_refresh_wraps :
    Reachable (linenoiseEdit true noCompletions initialState initialHist 8 [112, 32] none).1 ∧
    refreshMultiLine_old_rows
      (linenoiseEdit true noCompletions initialState initialHist 8 [112, 32] none).1 = 0 ∧
    refreshMultiLine_rpos
      (linenoiseEdit true noCompletions initialState initialHist 8 [112, 32] none).1 = 1 ∧
    ¬ (refreshMultiLine_rpos
        (linenoiseEdit true noCompletions initialState initialHist 8 [112, 32] none).1
      ≤ refreshMultiLine_old_rows
        (linenoiseEdit true noCompletions initialState initialHist 8 [112, 32] none).1) ∧
    ¬ (1 ≤ refreshMultiLine_old_rows
        (linenoiseEdit true noCompletions initialState initialHist 8 [112, 32] none).1) ∧
    sizeTSub
      (refreshMultiLine_old_rows
        (linenoiseEdit true noCompletions initialState initialHist 8 [112, 32] none).1)
      (refreshMultiLine_rpos
        (linenoiseEdit true noCompletions initialState initialHist 8 [112, 32] none).1)
      = 2 ^ 64 - 1 ∧
    sizeTSub
      (refreshMultiLine_old_rows
        (linenoiseEdit true noCompletions initialState initialHist 8 [112, 32] none).1) 1
      = 2 ^ 64 - 1 := by
  refine ⟨Reachable.step initialState true noCompletions initialHist 8 [112, 32] none
    Reachable.start, ?_⟩
  decide

/-! ## The hint placeholder highlight (C8) -/

theorem nextArgStart_eq (tpl : List Nat) (p : Nat) :
    nextArgStart tpl p =
      (if tpl.getD (p + ((tpl.drop p).takeWhile (fun x => x != 0 && x != 91)).length) 0 ≠ 0
       then p + ((tpl.drop p).takeWhile (fun x => x != 0 && x != 91)).length + 1
       else p + ((tpl.drop p).takeWhile (fun x => x != 0 && x != 91)).length) := rfl

theorem nextArgStart_cons_succ (b : Nat) (rest : List Nat) (p : Nat) :
    nextArgStart (b :: rest) (p + 1) = nextArgStart rest p + 1 := by
  rw [nextArgStart_eq, nextArgStart_eq, List.drop_succ_cons]
  rw [show p + 1 + ((rest.drop p).takeWhile (fun x => x != 0 && x != 91)).length
    = (p + ((rest.drop p).takeWhile (fun x => x != 0 && x != 91)).length) + 1 from by omega]
  rw [List.getD_cons_succ]
  by_cases hz :
      rest.getD (p + ((rest.drop p).takeWhile (fun x => x != 0 && x != 91)).length) 0 ≠ 0
  · rw [if_pos hz, if_pos hz]
  · rw [if_neg hz, if_neg hz]

theorem nextArgStart_cons_zero (b : Nat) (rest : List Nat) (hb0 : b ≠ 0) (hb91 : b ≠ 91) :
    nextArgStart (b :: rest) 0 = nextArgStart rest 0 + 1 := by
  rw [nextArgStart_eq, nextArgStart_eq, List.drop_zero, List.drop_zero]
  have htw : (b :: rest).takeWhile (fun x => x != 0 && x != 91)
      = b :: rest.takeWhile (fun x => x != 0 && x != 91) := by
    rw [List.takeWhile_cons, if_pos (by simp [hb0, hb91])]
  rw [htw, List.length_cons]
  rw [show 0 + ((rest.takeWhile (fun x => x != 0 && x != 91)).length + 1)
    = (0 + (rest.takeWhile (fun x => x != 0 && x != 91)).length) + 1 from by omega]
  rw [List.getD_cons_succ]
  by_cases hz :
      rest.getD (0 + (rest.takeWhile (fun x => x != 0 && x != 91)).length) 0 ≠ 0
  · rw [if_pos hz, if_pos hz]
  · rw [if_neg hz, if_neg hz]

theorem nextArgStart_bracket_zero (rest : List Nat) : nextArgStart (91 :: rest) 0 = 1 := rfl

theorem argStartIter_cons_ne (b : Nat) (rest : List Nat) (hb0 : b ≠ 0) (hb91 : b ≠ 91) :
    ∀ m, argStartIter (b :: rest) (m + 1) = argStartIter rest (m + 1) + 1 := by
  intro m
  induction m with
  | zero =>
    show nextArgStart (b :: rest) (argStartIter (b :: rest) 0)
      = nextArgStart rest (argStartIter rest 0) + 1
    exact nextArgStart_cons_zero b rest hb0 hb91
  | succ m ih =>
    show nextArgStart (b :: rest) (argStartIter (b :: rest) (m + 1))
      = nextArgStart rest (argStartIter rest (m + 1)) + 1
    rw [ih, nextArgStart_cons_succ]

theorem argStartIter_cons91 (rest : List Nat) :
    ∀ m, argStartIter (91 :: rest) (m + 1) = argStartIter rest m + 1 := by
  intro m
  induction m with
  | zero => exact nextArgStart_bracket_zero rest
  | succ m ih =>
    show nextArgStart (91 :: rest) (argStartIter (91 :: rest) (m + 1))
      = nextArgStart rest (argStartIter rest m) + 1
    rw [ih, nextArgStart_cons_succ]

theorem argStartIter_bracketGroups : ∀ (tpl : List Nat), 0 ∉ tpl →
    ∀ k, k + 1 ≤ (bracketGroups tpl).length →
    ∃ j, j < tpl.length ∧ tpl.getD j 0 = 91 ∧
      argStartIter tpl (k + 1) = j + 1 ∧
      (bracketGroups tpl).getD k [] = (tpl.drop (j + 1)).takeWhile (fun x => x != 93) := by
  intro tpl
  induction tpl with
  | nil =>
    intro _ k hk
    rw [show bracketGroups [] = [] from rfl] at hk
    simp at hk
  | cons b rest ih =>
    intro h0 k hk
    by_cases hb : b = 91
    · subst hb
      have hbg : bracketGroups (91 :: rest)
          = (rest.takeWhile (fun x => x != 93)) :: bracketGroups rest := by
        rw [bracketGroups, if_pos rfl]
      cases k with
      | zero =>
        refine ⟨0, by simp, rfl, ?_, ?_⟩
        · rw [argStartIter_cons91 rest 0]
          rfl
        · rw [hbg, List.getD_cons_zero, List.drop_succ_cons, List.drop_zero]
      | succ k =>
        have hk' : k + 1 ≤ (bracketGroups rest).length := by
          rw [hbg, List.length_cons] at hk
          omega
        obtain ⟨j, hjlen, hj91, hiter, hgroup⟩ :=
          ih (fun hm => h0 (List.mem_cons_of_mem _ hm)) k hk'
        refine ⟨j + 1, by simp; omega, ?_, ?_, ?_⟩
        · rw [List.getD_cons_succ]
          exact hj91
        · rw [argStartIter_cons91 rest (k + 1), hiter]
        · rw [hbg, List.getD_cons_succ, hgroup, List.drop_succ_cons]
    · have hb0 : b ≠ 0 := fun hh => h0 (by rw [hh]; exact List.mem_cons_self 0 rest)
      have hbg : bracketGroups (b :: rest) = bracketGroups rest := by
        rw [bracketGroups, if_neg hb]
      rw [hbg] at hk
      obtain ⟨j, hjlen, hj91, hiter, hgroup⟩ :=
        ih (fun hm => h0 (List.mem_cons_of_mem _ hm)) k hk
      refine ⟨j + 1, by simp; omega, ?_, ?_, ?_⟩
      · rw [List.getD_cons_succ]
        exact hj91
      · rw [argStartIter_cons_ne b rest hb0 hb k, hiter]
      · rw [hbg, hgroup, List.drop_succ_cons]

theorem take_length_takeWhile (p : Nat → Bool) : ∀ (l : List Nat),
    l.take (l.takeWhile p).length = l.takeWhile p := by
  intro l
  induction l with
  | nil => rfl
  | cons b rest ih =>
    rw [List.takeWhile_cons]
    by_cases hb : p b = true
    · rw [if_pos hb, List.length_cons, List.take_succ_cons, ih]
    · rw [if_neg hb]
      rfl

theorem takeWhile_seg_split : ∀ (l : List Nat), 0 ∉ l →
    l.takeWhile (fun b => b != 0 && b != 32 && b != 93)
      = (l.takeWhile (fun b => b != 93)).takeWhile (fun b => b != 32) := by
  intro l
  induction l with
  | nil => intro _; rfl
  | cons b rest ih =>
    intro h0
    have hb0 : b ≠ 0 := fun hh => h0 (by rw [hh]; exact List.mem_cons_self 0 rest)
    rw [List.takeWhile_cons, List.takeWhile_cons]
    by_cases h93 : b = 93
    · subst h93
      rw [if_neg (by decide), if_neg (by decide)]
      rfl
    · by_cases h32 : b = 32
      · subst h32
        rw [if_neg (by decide), if_pos (by decide), List.takeWhile_cons, if_neg (by decide)]
      · rw [if_pos (by simp [hb0, h32, h93]), if_pos (by simp [h93]),
          List.takeWhile_cons, if_pos (by simp [h32])]
        rw [ih (fun hm => h0 (List.mem_cons_of_mem b hm))]

theorem isPrefixOf_cons_false (p1 : Nat) (ps : List Nat) (b : Nat) (rest : List Nat)
    (h : p1 ≠ b) : (p1 :: ps).isPrefixOf (b :: rest) = false := by
  show (p1 == b && ps.isPrefixOf rest) = false
  rw [beq_eq_false_iff_ne.mpr h, Bool.false_and]

theorem afterPat_skip_part0 (X : List Nat) :
    afterPat escHintRev (32 :: (escHintNorm ++ X)) = afterPat escHintRev X := rfl

theorem afterPat_find : ∀ (A R : List Nat), 27 ∉ A →
    afterPat escHintRev (A ++ (escHintRev ++ R)) = some R := by
  intro A
  induction A with
  | nil =>
    intro R _
    show afterPat escHintRev (escHintRev ++ R) = some R
    rw [show escHintRev ++ R = 27 :: ([91, 55, 59, 51, 53, 59, 52, 57, 109] ++ R) from rfl]
    rw [afterPat]
    have hpre : escHintRev.isPrefixOf (27 :: ([91, 55, 59, 51, 53, 59, 52, 57, 109] ++ R))
        = true := List.isPrefixOf_iff_prefix.mpr ⟨R, rfl⟩
    rw [if_pos hpre]
    rfl
  | cons a A ih =>
    intro R h27
    have ha : a ≠ 27 := fun hh => h27 (by rw [hh]; exact List.mem_cons_self 27 A)
    show afterPat escHintRev (a :: (A ++ (escHintRev ++ R))) = some R
    rw [afterPat]
    rw [show escHintRev = 27 :: [91, 55, 59, 51, 53, 59, 52, 57, 109] from rfl]
    rw [isPrefixOf_cons_false 27 _ a _ (Ne.symm ha), if_neg Bool.false_ne_true]
    exact ih R (fun hm => h27 (List.mem_cons_of_mem a hm))

theorem beforePat_find : ∀ (M rest : List Nat), 27 ∉ M →
    beforePat escHintNorm (M ++ (escHintNorm ++ rest)) = M := by
  intro M
  induction M with
  | nil =>
    intro rest _
    show beforePat escHintNorm (escHintNorm ++ rest) = []
    rw [show escHintNorm ++ rest = 27 :: ([91, 48, 59, 51, 53, 59, 52, 57, 109] ++ rest)
      from rfl]
    rw [beforePat]
    have hpre : escHintNorm.isPrefixOf (27 :: ([91, 48, 59, 51, 53, 59, 52, 57, 109] ++ rest))
        = true := List.isPrefixOf_iff_prefix.mpr ⟨rest, rfl⟩
    rw [if_pos hpre]
  | cons m M ih =>
    intro rest h27
    have hm : m ≠ 27 := fun hh => h27 (by rw [hh]; exact List.mem_cons_self 27 M)
    show beforePat escHintNorm (m :: (M ++ (escHintNorm ++ rest))) = m :: M
    rw [beforePat]
    rw [show escHintNorm = 27 :: [91, 48, 59, 51, 53, 59, 52, 57, 109] from rfl]
    rw [isPrefixOf_cons_false 27 _ m _ (Ne.symm hm), if_neg Bool.false_ne_true]
    exact congrArg (List.cons m) (ih rest (fun hx => h27 (List.mem_cons_of_mem m hx)))

theorem argEndFrom_eq (tpl : List Nat) (st : Nat) :
    argEndFrom tpl st
      = st + ((tpl.drop st).takeWhile (fun b => b != 0 && b != 32 && b != 93)).length := rfl

/-- Claim C8 as stated is false on the code: the placeholder scan runs the
bracket-skipping loop once per space byte starting from the beginning of the
template, so the byte sequence it wraps in reverse video belongs to the
placeholder with zero-based index countSpaces - 1, not countSpaces: with one
space in the buffer and the template "[a] [b]" the highlighted bytes are "a"
(placeholder 0), not placeholder 1. -/
theorem c8_counterexample :
    countSpaces [102, 32] = 1 ∧
    bracketGroups [91, 97, 93, 32, 91, 98, 93] = [[97], [98]] ∧
    firstHighlight (refreshShowHints 80 0 2 [102, 32]
      (some ([91, 97, 93, 32, 91, 98, 93], []))) = some [97] ∧
    ¬ (firstHighlight (refreshShowHints 80 0 2 [102, 32]
        (some ([91, 97, 93, 32, 91, 98, 93], [])))
      = some (((bracketGroups [91, 97, 93, 32, 91, 98, 93]).getD
          (countSpaces [102, 32]) []).takeWhile (fun b => b != 32))) := by
  decide

set_option maxHeartbeats 1000000 in
/-- Claim C8 (amended): whenever the buffer contains at least one space, the
args template holds enough bracket placeholders, no truncation occurs
(plen + len + 1 + |template| ≤ cols), the template contains neither NUL nor
ESC bytes, and the selected placeholder starts with a highlightable byte, the
emitted hint wraps in reverse video (ESC[7;35;49m before, ESC[0;35;49m after)
exactly the space-free head of the bracket placeholder with zero-based index
countSpaces(buf) - 1. -/
theorem c8_hint_highlight (cols plen len : Nat) (buf h0 h1 : List Nat)
    (hk1 : 1 ≤ countSpaces buf)
    (hkg : countSpaces buf ≤ (bracketGroups h0).length)
    (h27 : 27 ∉ h0) (h00 : 0 ∉ h0)
    (hfit : plen + len + 1 + h0.length ≤ cols)
    (hseg : ((bracketGroups h0).getD (countSpaces buf - 1) []).takeWhile
        (fun b => b != 32) ≠ []) :
    firstHighlight (refreshShowHints cols plen len buf (some (h0, h1)))
      = some (((bracketGroups h0).getD (countSpaces buf - 1) []).takeWhile
          (fun b => b != 32)) := by
  obtain ⟨j, hjlen, hj91, hiter, hgroup⟩ :=
    argStartIter_bracketGroups h0 h00 (countSpaces buf - 1) (by omega)
  rw [show countSpaces buf - 1 + 1 = countSpaces buf from by omega] at hiter
  have hne0 : h0 ≠ [] := by
    intro hnil
    subst hnil
    rw [show bracketGroups ([] : List Nat) = [] from rfl] at hkg
    simp at hkg
    omega
  have hlen0 : 1 ≤ h0.length := List.length_pos.mpr hne0
  have hcontains : buf.contains 32 = true := by
    have h' : 0 < buf.countP (fun b => b == 32) := hk1
    rw [List.countP_pos_iff] at h'
    obtain ⟨a, ha, hb⟩ := h'
    have ha32 : a = 32 := by simpa using hb
    subst ha32
    exact List.elem_iff.mpr ha
  have h00d : 0 ∉ h0.drop (j + 1) := fun hm => h00 (List.drop_subset _ _ hm)
  have hsegsplit : (h0.drop (j + 1)).takeWhile (fun b => b != 0 && b != 32 && b != 93)
      = ((bracketGroups h0).getD (countSpaces buf - 1) []).takeWhile (fun b => b != 32) := by
    rw [takeWhile_seg_split (h0.drop (j + 1)) h00d, ← hgroup]
  have hsegpos :
      0 < ((h0.drop (j + 1)).takeWhile (fun b => b != 0 && b != 32 && b != 93)).length := by
    rw [List.length_pos, hsegsplit]
    exact hseg
  have hseglen :
      ((h0.drop (j + 1)).takeWhile (fun b => b != 0 && b != 32 && b != 93)).length
        ≤ h0.length - (j + 1) := by
    have hs := (List.takeWhile_sublist
      (l := h0.drop (j + 1)) (fun b => b != 0 && b != 32 && b != 93)).length_le
    rwa [List.length_drop] at hs
  have habLen : min h0.length ((cols : Int) - ((plen : Int) + (len : Int) + 1)).toNat
      = h0.length := Nat.min_eq_left (by omega)
  have h27A : 27 ∉ h0.take (j + 1) := fun hm => h27 (List.take_subset _ _ hm)
  have h27M : 27 ∉ (h0.drop (j + 1)).takeWhile (fun b => b != 0 && b != 32 && b != 93) :=
    fun hm => h27 (List.drop_subset _ _ ((List.takeWhile_sublist _).subset hm))
  rw [← hsegsplit]
  simp only [refreshShowHints]
  rw [if_pos (show (0 : Int) < (cols : Int) - ((plen : Int) + (len : Int) + 1) by omega)]
  rw [if_pos hne0]
  rw [hcontains]
  rw [if_pos (rfl : true = true)]
  rw [hiter]
  rw [if_pos (show j + 1 ≠ 0 by omega)]
  rw [argEndFrom_eq]
  rw [if_pos (show j + 1 ≠ j + 1 + ((h0.drop (j + 1)).takeWhile
      (fun b => b != 0 && b != 32 && b != 93)).length by omega)]
  rw [habLen]
  rw [Nat.min_eq_right (show j + 1 ≤ h0.length by omega)]
  rw [if_neg (show ¬ h0.length < j + 1 by omega)]
  rw [if_neg (show ¬ h0.length < j + 1 + ((h0.drop (j + 1)).takeWhile
      (fun b => b != 0 && b != 32 && b != 93)).length by omega)]
  rw [show j + 1 + ((h0.drop (j + 1)).takeWhile
      (fun b => b != 0 && b != 32 && b != 93)).length - (j + 1)
    = ((h0.drop (j + 1)).takeWhile (fun b => b != 0 && b != 32 && b != 93)).length
    from by omega]
  rw [take_length_takeWhile]
  rw [firstHighlight]
  by_cases hca1 : (0 : Int) < (cols : Int) - ((plen : Int) + (len : Int) + 1) - (h0.length : Int)
  · rw [if_pos hca1]
    dsimp only
    simp only [List.append_assoc, List.cons_append]
    rw [afterPat_skip_part0, afterPat_find _ _ h27A]
    rw [Option.map_some']
    exact congrArg some (beforePat_find _ _ h27M)
  · rw [if_neg hca1]
    dsimp only
    simp only [List.append_assoc, List.cons_append]
    rw [afterPat_skip_part0, afterPat_find _ _ h27A]
    rw [Option.map_some']
    exact congrArg some (beforePat_find _ _ h27M)

/-- Witness for C8 (amended): two spaces in the buffer and the template
"[a] [b]": the second placeholder "b" is highlighted. -/
theorem c8_hint_highlight_witness :
    firstHighlight (refreshShowHints 80 0 3 [103, 32, 32]
      (some ([91, 97, 93, 32, 91, 98, 93], [99])))
      = some (((bracketGroups [91, 97, 93, 32, 91, 98, 93]).getD
          (countSpaces [103, 32, 32] - 1) []).takeWhile (fun b => b != 32)) :=
  c8_hint_highlight 80 0 3 [103, 32, 32] [91, 97, 93, 32, 91, 98, 93] [99]
    (by decide) (by decide) (by decide) (by decide) (by decide) (by decide)


end Linenoise
